import Mathlib

/-!
Verification of the `github-canvas-grader` repository
(`github_canvas_grader/github_canvas_grader.py`).

The development shallowly embeds the script's pure decision logic, and an
explicit-state model of its effectful grading loop, into Lean:

* Python strings are modelled as `String` (or `List Char` where character
  level reasoning is needed); Python `str.lower` is modelled on ASCII
  letters, which is exact for GitHub user names and EIDs.
* Python exceptions are modelled by the `PyError` type together with
  `Except PyError` results; a bare `except:` is modelled by matching on
  the `Except` value and discarding the error.
* The external collaborators (GitHub API, Canvas API, gspread, pandas,
  dateutil parsing) are modelled as explicit inputs: each collaborator
  call's outcome is a field of an environment structure, so theorems
  quantify over every possible collaborator behaviour.
* Timestamps are modelled as absolute times in integer seconds (the image
  of `dateutil.parser.parse`); `dateutil.relativedelta.relativedelta`
  between two instants normalises all components to share the sign of the
  difference, which `relativedelta` below reproduces exactly for the
  `days`/`hours`/`minutes`/`seconds` fields (extraction of whole months
  only moves whole same-time-of-day days into the `months` field, which
  `score_multiplier` never reads, so it is omitted).
* Python floats that the script produces (`float(multiplier)`, `1 *
  multiplier`, `0`) are modelled as exact rationals.
-/

/-! ## Characters and small string utilities -/

/-- The double-quote character. -/
def cQuote : Char := Char.ofNat 34

/-- The backslash character. -/
def cBackslash : Char := Char.ofNat 92

/-- The opening curly-brace character. -/
def cLBrace : Char := Char.ofNat 123

/-- The closing curly-brace character. -/
def cRBrace : Char := Char.ofNat 125

/-- ASCII lower-casing of one character: model of Python `str.lower` on the
ASCII range (GitHub user names, EIDs and repository names are ASCII). -/
def lowerChar (c : Char) : Char :=
  if 65 ≤ c.toNat ∧ c.toNat ≤ 90 then Char.ofNat (c.toNat + 32) else c

/-- Lower-case every character of a character list. -/
def lowerL (s : List Char) : List Char := s.map lowerChar

/-- Model of Python `str.lower` on `String`. -/
def strLower (s : String) : String := String.mk (lowerL s.data)

/-- Model of Python `str.split(sep)` for a one-character separator:
`splitCh sep s` cuts `s` at every occurrence of `sep`; like Python's
`split`, it yields `[[]]` on the empty string and keeps empty chunks. -/
def splitCh (sep : Char) : List Char → List (List Char)
  | [] => [[]]
  | c :: cs =>
    if c = sep then [] :: splitCh sep cs
    else
      match splitCh sep cs with
      | [] => [[c]]
      | t :: ts => (c :: t) :: ts

/-- Model of Python `sep.join(chunks)` for a one-character separator. -/
def joinCh (sep : Char) : List (List Char) → List Char
  | [] => []
  | [t] => t
  | t :: ts => t ++ sep :: joinCh sep ts

/-- Character-list core of `strip_github_username`
(`'-'.join(repo.split('-')[1:]).lower()`, source lines 220-236). -/
def stripL (l : List Char) : List Char :=
  lowerL (joinCh '-' ((splitCh '-' l).drop 1))

/-- `strip_github_username` (source lines 220-236): drop the first
hyphen-delimited token of the repository name, re-join the remaining tokens
with hyphens, and lower-case the result. -/
def strip_github_username (repo : String) : String :=
  String.mk (stripL repo.data)

/-- `listBeginsWith needle hay`: `needle` is a prefix of `hay`. -/
def listBeginsWith : List Char → List Char → Bool
  | [], _ => true
  | _ :: _, [] => false
  | a :: as, b :: bs => a == b && listBeginsWith as bs

/-- Model of Python's substring test `needle in hay` on character lists. -/
def pyInL (needle : List Char) : List Char → Bool
  | [] => needle.isEmpty
  | c :: t => listBeginsWith needle (c :: t) || pyInL needle t

/-- Model of Python's substring test `needle in hay` on strings. -/
def pyIn (needle hay : String) : Bool := pyInL needle.data hay.data

/-! ## Python exceptions and log messages -/

/-- Model of the Python exception classes this script can meet.
`valueError` covers `ValueError` and its subclasses (notably
`json.JSONDecodeError`); `apiError` covers the gspread / HTTP errors
(`gspread.exceptions.APIError`, permission and network failures), which are
*not* `ValueError` subclasses; `keyError` is a pandas `.loc` missing-label
`KeyError`; `attributeError` arises from attribute access on `None`;
`typeError` from `dateutil.parser.parse(None)`; `nameError` from reading a
never-assigned local variable. -/
inductive PyError where
  | keyError
  | attributeError
  | typeError
  | nameError
  | valueError
  | apiError
  | otherError
deriving DecidableEq

/-- Equality of modelled call results is decidable (used to evaluate the
model on concrete inputs). -/
instance {e a : Type} [DecidableEq e] [DecidableEq a] :
    DecidableEq (Except e a) := fun x y =>
  match x, y with
  | .ok u, .ok v =>
    if h : u = v then isTrue (by rw [h]) else isFalse (by simp [h])
  | .error u, .error v =>
    if h : u = v then isTrue (by rw [h]) else isFalse (by simp [h])
  | .ok _, .error _ => isFalse (by simp)
  | .error _, .ok _ => isFalse (by simp)

/-- Status messages printed by `read_username_map`. -/
inductive Msg where
  | errorReadingGoogleSheet
  | mustSpecifyUsernameMap
deriving DecidableEq

/-! ## Workflow result reader (source lines 136-218) -/

/-- One entry of the GitHub `workflow_runs` array: its display name, its
`conclusion` field (`none` models JSON `null`, e.g. an in-progress run),
and the `head_commit.timestamp` field, modelled as the parsed absolute
time in seconds. -/
structure WorkflowRun where
  name : String
  conclusion : Option String
  head_commit_timestamp : Int
deriving DecidableEq

/-- The response of `api.actions.list_workflow_runs_for_repo`: the
`total_count` field and the `workflow_runs` array, read separately by the
script. -/
structure RunsResponse where
  total_count : Nat
  workflow_runs : List WorkflowRun
deriving DecidableEq

/-- `get_latest_workflow_run` (source lines 136-163): `None` when
`total_count == 0`; otherwise the first run, in response order, whose
display name contains the workflow filename as a substring
(`workflow_filename in workflow_run['name']`), falling off the loop and
returning `None` when no name matches. -/
def get_latest_workflow_run (runs : RunsResponse)
    (workflow_filename : String := "main.yml") : Option WorkflowRun :=
  if runs.total_count = 0 then none
  else runs.workflow_runs.find? (fun r => pyIn workflow_filename r.name)

/-- `get_latest_workflow_commit_time_and_conclusion` (source lines
194-218): `(None, None)` when `get_latest_workflow_run` found nothing,
otherwise the found run's head-commit timestamp and conclusion verbatim. -/
def get_latest_workflow_commit_time_and_conclusion (runs : RunsResponse)
    (workflow_filename : String := "main.yml") : Option Int × Option String :=
  match get_latest_workflow_run runs workflow_filename with
  | none => (none, none)
  | some run => (some run.head_commit_timestamp, run.conclusion)

/-! ## Scoring engine (source lines 324-349) -/

/-- The components of `dateutil.relativedelta.relativedelta(dt1, dt2)`
that `score_multiplier` reads, plus `days`.  `relativedelta` between two
instants decomposes the difference with every component carrying the sign
of the whole difference, `hours < 24`, `minutes < 60`, `seconds < 60`
in absolute value. -/
structure RelativeDelta where
  days : Int
  hours : Int
  minutes : Int
  seconds : Int
deriving DecidableEq

/-- Model of `dateutil.relativedelta.relativedelta(t1, t2)` for two
instants given in absolute seconds.  dateutil first extracts whole
calendar months - a shift by whole same-time-of-day days, hence by a
multiple of 86400 seconds, which only moves whole days out of `days` into
the `months`/`years` fields that the script never reads - and then
decomposes the remaining difference into `days`/`hours`/`minutes`/
`seconds`, all carrying the sign of the difference.  The model skips the
month extraction (so `days` here holds all whole days), which leaves the
`hours`, `minutes` and `seconds` fields exactly those of dateutil. -/
def relativedelta (t1 t2 : Int) : RelativeDelta :=
  let d := t1 - t2
  let a : Int := |d|
  let sgn : Int := if d < 0 then -1 else 1
  { days := sgn * (a / 86400)
    hours := sgn * (a % 86400 / 3600)
    minutes := sgn * (a % 3600 / 60)
    seconds := sgn * (a % 60) }

/-- The command-line arguments `score_multiplier` reads: `--due` presence,
and, when present, the due instant (model of
`dateutil.parser.parse(f"{DATE} {TIME} {TIME_ZONE}")`, in absolute
seconds) and the parsed multiplier (model of `float(args['<MULTIPLIER>'])`
as an exact rational). -/
structure Args where
  due : Bool
  dueTime : Int
  multiplier : Rat
deriving DecidableEq

/-- `score_multiplier` (source lines 324-349).  The commit time is the
string taken from the workflow run, already modelled as a parsed instant;
it is `none` when the caller passed Python `None`, in which case
`dateutil.parser.parse(None)` raises `TypeError` - but only when `--due`
was given, since otherwise the function returns `1.0` without touching it.
When `--due` is given, the hour, minute and second components of
`relativedelta(commit_time, due_time)` are each compared with `0` by
`comparison_operator` (default `a <= b`); if all three comparisons hold
the function returns the configured multiplier, otherwise `1.0`. -/
def score_multiplier (args : Args) (commit_time : Option Int)
    (comparison_operator : Int → Int → Bool := fun a b => decide (a ≤ b)) :
    Except PyError Rat :=
  if args.due then
    match commit_time with
    | none => .error .typeError
    | some t =>
      let rel_time := relativedelta t args.dueTime
      if comparison_operator rel_time.hours 0 &&
         comparison_operator rel_time.minutes 0 &&
         comparison_operator rel_time.seconds 0 then
        .ok args.multiplier
      else
        .ok 1
  else
    .ok 1

/-! ## Identity map loading (source lines 83-108 and 291-322) -/

/-- Lower-case both columns of a username table: the model of the two
`apply(lambda s: s.lower())` column transformations applied to
`Github Username` (first component) and `EID` (second component). -/
def lowerRows (rows : List (String × String)) : List (String × String) :=
  rows.map (fun p => (strLower p.1, strLower p.2))

/-- `username_map_from_google_sheet` (source lines 83-108).  The argument
models the composite collaborator pipeline (decode the credentials,
authenticate, `gc.open(f'{classname} Github Names').sheet1`,
`get_all_records()`): either the raw rows of the sheet or the exception
the pipeline raised.  On success both columns are lower-cased and the
table is indexed by `Github Username`. -/
def username_map_from_google_sheet
    (fetch : Except PyError (List (String × String))) :
    Except PyError (List (String × String)) :=
  match fetch with
  | .error e => .error e
  | .ok rows => .ok (lowerRows rows)

/-- `read_username_map` (source lines 291-322).  `localFile` models the
contents of `username_map.csv` when that file exists (`os.path.isfile`),
`creditials`/`classname` the two optional arguments, and `fetch` the
Google-sheet collaborator pipeline as in
`username_map_from_google_sheet`.  The local file wins outright; else,
with both arguments supplied, the sheet is read inside
`try ... except ValueError`, so a `ValueError` (and only a `ValueError`)
is swallowed with a printed message; else an instructive message is
printed.  The value is the returned mapping (`none` models Python's
implicit `None` return) with the printed messages. -/
def read_username_map (localFile : Option (List (String × String)))
    (creditials classname : Option String)
    (fetch : Except PyError (List (String × String))) :
    Except PyError (Option (List (String × String)) × List Msg) :=
  match localFile with
  | some rows => .ok (some (lowerRows rows), [])
  | none =>
    match creditials, classname with
    | some _, some _ =>
      match username_map_from_google_sheet fetch with
      | .ok m => .ok (some m, [])
      | .error .valueError => .ok (none, [.errorReadingGoogleSheet])
      | .error e => .error e
    | _, _ => .ok (none, [.mustSpecifyUsernameMap])

/-! ## The grading loop (source lines 379-447) -/

/-- Status lines printed inside the grading loop: the
`"No workflow runs for {repo}"` message and the verbose
`"Updated grade: {canvas_id} = {score}"` message. -/
inductive Ev where
  | noRuns (repo : String)
  | updated (canvas_id : Nat) (score : Rat)
deriving DecidableEq

/-- Model of `username_map.loc[github_username, "EID"]` (source line 433).
`username_map` is `none` when `read_username_map` returned `None`, in
which case the attribute access `.loc` on `None` raises
`AttributeError`; a label absent from the index raises `KeyError`;
otherwise the `EID` cell of the (first) matching row is returned. -/
def lookupLoc (username_map : Option (List (String × String)))
    (github_username : String) : Except PyError String :=
  match username_map with
  | none => .error .attributeError
  | some m =>
    match m.find? (fun p => p.1 == github_username) with
    | none => .error .keyError
    | some p => .ok p.2

/-- The collaborator behaviour visible to one grading run: the workflow
runs response per repository, the loaded username map (or `None`), the
outcome of `course.get_assignment(get_assignment_id(...))`, and the
outcomes of `course.get_user(eid, 'sis_login_id').id`,
`assignment.get_submission(canvas_id)` and
`submission.edit(submission={'posted_grade': score})`. -/
structure LoopEnv where
  repoRuns : String → RunsResponse
  usernameMap : Option (List (String × String))
  get_assignment : Except PyError Unit
  getUser : String → Except PyError Nat
  getSubmission : Nat → Except PyError Unit
  editSubmission : Nat → Rat → Except PyError Unit

/-- The `try: ... except: pass` block of the grading loop (source lines
432-444), as a state transformer on the Python variable `score`, which -
being a name in the enclosing (module) scope - survives from one loop
iteration to the next; `scoreVar = none` models `score` never yet
assigned.  Every exception raised inside the block (pandas `KeyError` /
`AttributeError`, Canvas lookup or submission failures, and the
`NameError` raised by `submission.edit` reading `score` when the
conclusion matched neither `'success'` nor `'failure'` and no earlier
iteration assigned it) is swallowed by the bare `except`, keeping
whatever assignments already happened.  Returns the new value of `score`,
the successfully posted `(canvas_id, posted_grade)` pairs and the printed
messages. -/
def tryBody (env : LoopEnv) (github_username : String) (conclusion : String)
    (multiplier : Rat) (scoreVar : Option Rat) :
    Option Rat × List (Nat × Rat) × List Ev :=
  match lookupLoc env.usernameMap github_username with
  | .error _ => (scoreVar, [], [])
  | .ok eid =>
    match env.getUser eid with
    | .error _ => (scoreVar, [], [])
    | .ok canvas_id =>
      match env.getSubmission canvas_id with
      | .error _ => (scoreVar, [], [])
      | .ok _ =>
        let scoreVar' :=
          if conclusion == "success" then some (1 * multiplier)
          else if conclusion == "failure" then some 0
          else scoreVar
        match scoreVar' with
        | none => (scoreVar', [], [])
        | some score =>
          match env.editSubmission canvas_id score with
          | .error _ => (scoreVar', [], [])
          | .ok _ => (scoreVar', [(canvas_id, score)], [.updated canvas_id score])

/-- One iteration of the grading loop (source lines 417-446) for one
repository.  Outside the `try` block, exceptions propagate: the model
returns `.error` when `score_multiplier` raises (`--due` with a `None`
commit time) or when the assignment lookup fails. -/
def gradeRepo (env : LoopEnv) (args : Args) (repo : String)
    (scoreVar : Option Rat) :
    Except PyError (Option Rat × List (Nat × Rat) × List Ev) :=
  let tc := get_latest_workflow_commit_time_and_conclusion (env.repoRuns repo)
  match tc.2 with
  | none => .ok (scoreVar, [], [.noRuns repo])
  | some conclusion =>
    let github_username := strip_github_username repo
    match score_multiplier args tc.1 with
    | .error e => .error e
    | .ok multiplier =>
      match env.get_assignment with
      | .error e => .error e
      | .ok _ => .ok (tryBody env github_username conclusion multiplier scoreVar)

/-- The whole grading loop (`for repo in repos:`, source lines 417-446),
threading the `score` variable through the iterations and collecting the
posted grades and printed messages in order. -/
def gradeAll (env : LoopEnv) (args : Args) (scoreVar : Option Rat) :
    List String → Except PyError (Option Rat × List (Nat × Rat) × List Ev)
  | [] => .ok (scoreVar, [], [])
  | repo :: repos =>
    match gradeRepo env args repo scoreVar with
    | .error e => .error e
    | .ok (scoreVar', posted, log) =>
      match gradeAll env args scoreVar' repos with
      | .error e => .error e
      | .ok (scoreVar'', posted', log') =>
        .ok (scoreVar'', posted ++ posted', log ++ log')

/-- The failure cases of claim C5 for one repository: during the `try`
block, the identity lookup raises (owner-handle missing from the mapping,
or no mapping loaded), or the Canvas user resolution raises, or fetching
the submission raises, or posting the grade raises. -/
def TryFails (env : LoopEnv) (github_username : String) : Prop :=
  (∃ e, lookupLoc env.usernameMap github_username = .error e) ∨
  (∃ eid e, lookupLoc env.usernameMap github_username = .ok eid ∧
    env.getUser eid = .error e) ∨
  (∃ eid canvas_id e, lookupLoc env.usernameMap github_username = .ok eid ∧
    env.getUser eid = .ok canvas_id ∧
    env.getSubmission canvas_id = .error e) ∨
  (∃ eid canvas_id e, lookupLoc env.usernameMap github_username = .ok eid ∧
    env.getUser eid = .ok canvas_id ∧
    env.getSubmission canvas_id = .ok () ∧
    ∀ s, env.editSubmission canvas_id s = .error e)

/-! ## JSON documents (credential codec, source lines 46-81)

A credential document is modelled by `Json`: Python `dict`s (string keys,
insertion-ordered, necessarily without duplicate keys - `wfJson` below),
`list`s, `str`s, `int`s, `bool`s and `None`.  Floats do not occur in
Google credential files and are outside the model.  `dumpsV` models
`json.dumps(..., separators=(',', ':'))` with its default
`ensure_ascii=True`; `parseValue` models `json.loads` on such minified
text (no inter-token whitespace, which `dumps` never emits, and integer
numbers). -/

inductive Json where
  | null
  | bool (b : Bool)
  | num (n : Int)
  | str (s : List Char)
  | arr (elems : List Json)
  | obj (members : List (List Char × Json))

/-- Hexadecimal digit character (lower case, as Python's `'\u%04x'`). -/
def hexDig (n : Nat) : Char :=
  if n < 10 then Char.ofNat (48 + n) else Char.ofNat (87 + n)

/-- Four-digit hexadecimal rendering used by `\uXXXX` escapes. -/
def toHex4 (n : Nat) : List Char :=
  [hexDig (n / 4096 % 16), hexDig (n / 256 % 16), hexDig (n / 16 % 16),
   hexDig (n % 16)]

/-- Value of one hexadecimal digit character (either case), as accepted
by `json.loads`. -/
def hexVal (c : Char) : Option Nat :=
  if 48 ≤ c.toNat ∧ c.toNat ≤ 57 then some (c.toNat - 48)
  else if 97 ≤ c.toNat ∧ c.toNat ≤ 102 then some (c.toNat - 87)
  else if 65 ≤ c.toNat ∧ c.toNat ≤ 70 then some (c.toNat - 55)
  else none

/-- `json.dumps` escaping of one string character with
`ensure_ascii=True`: `"` and `\` get a backslash, the five classic
control characters get their short escapes, other characters outside
`0x20..0x7e` become `\uXXXX` (a surrogate pair beyond the basic
multilingual plane), and printable ASCII stands for itself. -/
def escChar (c : Char) : List Char :=
  if c = cQuote then [cBackslash, cQuote]
  else if c = cBackslash then [cBackslash, cBackslash]
  else if c.toNat = 8 then [cBackslash, 'b']
  else if c.toNat = 9 then [cBackslash, 't']
  else if c.toNat = 10 then [cBackslash, 'n']
  else if c.toNat = 12 then [cBackslash, 'f']
  else if c.toNat = 13 then [cBackslash, 'r']
  else if 32 ≤ c.toNat ∧ c.toNat ≤ 126 then [c]
  else if c.toNat < 65536 then cBackslash :: 'u' :: toHex4 c.toNat
  else
    cBackslash :: 'u' :: toHex4 (55296 + (c.toNat - 65536) / 1024) ++
    cBackslash :: 'u' :: toHex4 (56320 + (c.toNat - 65536) % 1024)

/-- Escape every character of a JSON string body. -/
def escList : List Char → List Char
  | [] => []
  | c :: cs => escChar c ++ escList cs

/-- Fuelled decimal rendering; with fuel at least the argument the fuel
never runs out (division by ten loses at least nine from the argument). -/
def natToCharsAux : Nat → Nat → List Char
  | 0, n => [Char.ofNat (48 + n % 10)]
  | fuel + 1, n =>
    if n < 10 then [Char.ofNat (48 + n)]
    else natToCharsAux fuel (n / 10) ++ [Char.ofNat (48 + n % 10)]

/-- Decimal digit characters of a natural number, most significant
first, no leading zeros (Python's `repr` of a non-negative `int`). -/
def natToChars (n : Nat) : List Char := natToCharsAux n n

/-- Python `repr` of an `int`: optional minus sign, then decimal digits. -/
def intToChars (n : Int) : List Char :=
  if n < 0 then '-' :: natToChars n.natAbs else natToChars n.toNat

mutual

/-- `json.dumps(value, separators=(',', ':'))`: minified JSON text. -/
def dumpsV : Json → List Char
  | .null => ['n', 'u', 'l', 'l']
  | .bool false => ['f', 'a', 'l', 's', 'e']
  | .bool true => ['t', 'r', 'u', 'e']
  | .num n => intToChars n
  | .str s => cQuote :: escList s ++ [cQuote]
  | .arr xs => '[' :: dumpsItems xs ++ [']']
  | .obj kvs => cLBrace :: dumpsMembers kvs ++ [cRBrace]

/-- Comma-separated renderings of array elements. -/
def dumpsItems : List Json → List Char
  | [] => []
  | [x] => dumpsV x
  | x :: xs => dumpsV x ++ ',' :: dumpsItems xs

/-- Comma-separated renderings of object members (`"key":value`). -/
def dumpsMembers : List (List Char × Json) → List Char
  | [] => []
  | [(k, v)] => cQuote :: escList k ++ cQuote :: ':' :: dumpsV v
  | (k, v) :: kvs =>
    (cQuote :: escList k ++ cQuote :: ':' :: dumpsV v) ++ ',' :: dumpsMembers kvs

end

/-- No key occurs twice. -/
def nodupKeys : List (List Char) → Bool
  | [] => true
  | k :: ks => !(ks.contains k) && nodupKeys ks

mutual

/-- Well-formed documents: every object's key list is duplicate-free
(a Python `dict` cannot hold two equal keys). -/
def wfJson : Json → Bool
  | .null => true
  | .bool _ => true
  | .num _ => true
  | .str _ => true
  | .arr xs => wfList xs
  | .obj kvs => nodupKeys (kvs.map (fun kv => kv.1)) && wfMembers kvs

/-- All elements well-formed. -/
def wfList : List Json → Bool
  | [] => true
  | x :: xs => wfJson x && wfList xs

/-- All member values well-formed. -/
def wfMembers : List (List Char × Json) → Bool
  | [] => true
  | kv :: kvs => wfJson kv.2 && wfMembers kvs

end

/-- Numeric value of four hexadecimal digit characters, if all four are
hexadecimal digits. -/
def hexQuad (h1 h2 h3 h4 : Char) : Option Nat :=
  match hexVal h1, hexVal h2, hexVal h3, hexVal h4 with
  | some a, some b, some c, some d => some (a * 4096 + b * 256 + c * 16 + d)
  | _, _, _, _ => none

/-- The character denoted by a one-letter escape (`\"`, `\\`, `\/`,
`\b`, `\t`, `\n`, `\f`, `\r`), if any. -/
def simpleEsc (e : Char) : Option Char :=
  if e = cQuote then some cQuote
  else if e = cBackslash then some cBackslash
  else if e = '/' then some '/'
  else if e = 'b' then some (Char.ofNat 8)
  else if e = 't' then some (Char.ofNat 9)
  else if e = 'n' then some (Char.ofNat 10)
  else if e = 'f' then some (Char.ofNat 12)
  else if e = 'r' then some (Char.ofNat 13)
  else none

/-- Recombination of a surrogate pair. -/
def combineSur (n m : Nat) : Char :=
  Char.ofNat (65536 + (n - 55296) * 1024 + (m - 56320))

/-- Decode the low half of a surrogate pair (`\uXXXX` with a low
surrogate quad) following the high surrogate value `n`. -/
def parseLowSur (n : Nat) (k1 : List Char) : Option (Char × List Char) :=
  match k1 with
  | g0 :: gu :: g1 :: g2 :: g3 :: g4 :: k2 =>
    if g0 = cBackslash ∧ gu = 'u' then
      match hexQuad g1 g2 g3 g4 with
      | none => none
      | some m =>
        if 56320 ≤ m ∧ m < 57344 then some (combineSur n m, k2) else none
    else none
  | _ => none

/-- Decode one `\uXXXX` escape body (after the `\\u`), recombining a
surrogate pair when the first quad is a high surrogate. -/
def parseUBody (k : List Char) : Option (Char × List Char) :=
  match k with
  | h1 :: h2 :: h3 :: h4 :: k1 =>
    match hexQuad h1 h2 h3 h4 with
    | none => none
    | some n =>
      if 55296 ≤ n ∧ n < 56320 then parseLowSur n k1
      else if 56320 ≤ n ∧ n < 57344 then none
      else some (Char.ofNat n, k1)
  | _ => none

/-- Decode the escape that follows a backslash: the escape letter and
the input after it yield the denoted character and the remaining
input. -/
def escResult (e : Char) (k : List Char) : Option (Char × List Char) :=
  if e = 'u' then parseUBody k
  else
    match simpleEsc e with
    | none => none
    | some ch => some (ch, k)

/-- `json.loads` string-body scanning: consume characters up to the
closing unescaped quote, undoing `escChar` (including `\uXXXX` escapes
and surrogate pairs; a lone surrogate escape, which no `dumps` output
contains and no Lean `Char` can carry, is rejected).  The fuel only
bounds the recursion; since every step consumes at least one character,
any fuel exceeding the input length gives the untruncated behaviour
(callers pass `length + 1`). -/
def parseChars : Nat → List Char → Option (List Char × List Char)
  | 0, _ => none
  | _ + 1, [] => none
  | fuel + 1, c :: cs =>
    if c = cQuote then some ([], cs)
    else if c = cBackslash then
      match cs with
      | [] => none
      | e :: k =>
        match escResult e k with
        | none => none
        | some (ch, k2) => (parseChars fuel k2).map (fun p => (ch :: p.1, p.2))
    else (parseChars fuel cs).map (fun p => (c :: p.1, p.2))

/-- Longest digit run at the front of the input. -/
def spanDigits : List Char → List Char × List Char
  | [] => ([], [])
  | c :: cs =>
    if c.isDigit then
      let p := spanDigits cs
      (c :: p.1, p.2)
    else ([], c :: cs)

/-- Numeric value of a run of decimal digit characters. -/
def digitsVal (ds : List Char) : Nat :=
  ds.foldl (fun a c => a * 10 + (c.toNat - 48)) 0

mutual

/-- `json.loads` value scanning on minified text, fuelled to bound the
mutual recursion (the input length suffices, see `parsesBack`). -/
def parseValue : Nat → List Char → Option (Json × List Char)
  | 0, _ => none
  | fuel + 1, s =>
    match s with
    | [] => none
    | c :: s1 =>
      if c = 'n' then
        match s1 with
        | 'u' :: 'l' :: 'l' :: r => some (.null, r)
        | _ => none
      else if c = 't' then
        match s1 with
        | 'r' :: 'u' :: 'e' :: r => some (.bool true, r)
        | _ => none
      else if c = 'f' then
        match s1 with
        | 'a' :: 'l' :: 's' :: 'e' :: r => some (.bool false, r)
        | _ => none
      else if c = cQuote then
        match parseChars (s1.length + 1) s1 with
        | none => none
        | some (cs, r) => some (.str cs, r)
      else if c = '[' then
        match s1 with
        | ']' :: r => some (.arr [], r)
        | _ =>
          match parseItems fuel s1 with
          | none => none
          | some (xs, r) => some (.arr xs, r)
      else if c = cLBrace then
        match s1 with
        | [] => none
        | d :: _ =>
          if d = cRBrace then some (.obj [], s1.tail)
          else
            match parseMembers fuel s1 with
            | none => none
            | some (kvs, r) => some (.obj kvs, r)
      else if c = '-' then
        match spanDigits s1 with
        | ([], _) => none
        | (ds, r) => some (.num (-(digitsVal ds : Int)), r)
      else if c.isDigit then
        match spanDigits (c :: s1) with
        | ([], _) => none
        | (ds, r) => some (.num (digitsVal ds : Int), r)
      else none

/-- One or more comma-separated values, then the closing `]`. -/
def parseItems : Nat → List Char → Option (List Json × List Char)
  | 0, _ => none
  | fuel + 1, s =>
    match parseValue fuel s with
    | none => none
    | some (v, s1) =>
      match s1 with
      | ',' :: s2 =>
        match parseItems fuel s2 with
        | none => none
        | some (vs, r) => some (v :: vs, r)
      | ']' :: r => some ([v], r)
      | _ => none

/-- One or more comma-separated `"key":value` members, then `}`. -/
def parseMembers : Nat → List Char →
    Option (List (List Char × Json) × List Char)
  | 0, _ => none
  | fuel + 1, s =>
    match s with
    | [] => none
    | c :: s1 =>
      if c = cQuote then
        match parseChars (s1.length + 1) s1 with
        | none => none
        | some (k, s2) =>
          match s2 with
          | ':' :: s3 =>
            match parseValue fuel s3 with
            | none => none
            | some (v, s4) =>
              match s4 with
              | ',' :: s5 =>
                match parseMembers fuel s5 with
                | none => none
                | some (kvs, r) => some ((k, v) :: kvs, r)
              | d :: s5 => if d = cRBrace then some ([(k, v)], s5) else none
              | [] => none
          | _ => none
      else none

end

/-- `json.loads` on a complete minified document: the whole input must be
one value with nothing left over. -/
def loads (s : List Char) : Option Json :=
  match parseValue (s.length + 1) s with
  | some (v, []) => some v
  | _ => none

/-! ## Base64 (source lines 46-81) -/

/-- The base64 alphabet character of a sextet. -/
def b64Char (n : Nat) : Char :=
  if n < 26 then Char.ofNat (65 + n)
  else if n < 52 then Char.ofNat (97 + (n - 26))
  else if n < 62 then Char.ofNat (48 + (n - 52))
  else if n = 62 then '+'
  else '/'

/-- The sextet of a base64 alphabet character. -/
def b64Val (c : Char) : Option Nat :=
  if 65 ≤ c.toNat ∧ c.toNat ≤ 90 then some (c.toNat - 65)
  else if 97 ≤ c.toNat ∧ c.toNat ≤ 122 then some (c.toNat - 71)
  else if 48 ≤ c.toNat ∧ c.toNat ≤ 57 then some (c.toNat + 4)
  else if c = '+' then some 62
  else if c = '/' then some 63
  else none

/-- `base64.b64encode` on a byte list: three bytes become four alphabet
characters, a trailing group of one or two bytes is padded with `=`. -/
def b64encodeBytes : List Nat → List Char
  | [] => []
  | [b0] => [b64Char (b0 / 4), b64Char (b0 % 4 * 16), '=', '=']
  | [b0, b1] =>
    [b64Char (b0 / 4), b64Char (b0 % 4 * 16 + b1 / 16), b64Char (b1 % 16 * 4), '=']
  | b0 :: b1 :: b2 :: rest =>
    b64Char (b0 / 4) :: b64Char (b0 % 4 * 16 + b1 / 16) ::
    b64Char (b1 % 16 * 4 + b2 / 64) :: b64Char (b2 % 64) :: b64encodeBytes rest

/-- `base64.b64decode` on properly padded base64 text (the only shape
`b64encodeBytes` emits); anything else is a `binascii.Error`, i.e.
`none`. -/
def b64decodeChars : List Char → Option (List Nat)
  | [] => some []
  | c0 :: c1 :: c2 :: c3 :: rest =>
    match b64Val c0, b64Val c1 with
    | some s0, some s1 =>
      if c2 = '=' then
        if c3 = '=' ∧ rest = [] then some [s0 * 4 + s1 / 16] else none
      else
        match b64Val c2 with
        | none => none
        | some s2 =>
          if c3 = '=' then
            if rest = [] then some [s0 * 4 + s1 / 16, s1 % 16 * 16 + s2 / 4]
            else none
          else
            match b64Val c3 with
            | none => none
            | some s3 =>
              match b64decodeChars rest with
              | none => none
              | some bs =>
                some ((s0 * 4 + s1 / 16) :: (s1 % 16 * 16 + s2 / 4) ::
                      (s2 % 4 * 64 + s3) :: bs)
    | _, _ => none
  | _ => none

/-- `google_creditial_encoder` (source lines 46-65) applied to the
already-parsed credential document: minify with
`json.dumps(..., separators=(',', ':'))`, encode the (all-ASCII) text to
bytes, and base64-encode; the resulting byte string is decoded back to
ASCII text. -/
def google_creditial_encoder (d : Json) : List Char :=
  b64encodeBytes ((dumpsV d).map Char.toNat)

/-- `google_creditial_decoder` (source lines 67-81): base64-decode the
token (`binascii.Error` on malformed input), decode the bytes as ASCII
(`UnicodeDecodeError` on a byte ≥ 128), and `json.loads` the text; every
failure is `none`. -/
def google_creditial_decoder (t : List Char) : Option Json :=
  match b64decodeChars t with
  | none => none
  | some bytes =>
    if bytes.all (fun b => decide (b < 128)) then loads (bytes.map Char.ofNat)
    else none

/-- The remainder does not begin with a decimal digit (so a preceding
number rendering cannot swallow part of it). -/
def noLeadingDigit : List Char → Bool
  | [] => true
  | c :: _ => !c.isDigit

/-- `parseValue` succeeds on the rendering of `v` followed by any
non-digit remainder, for every sufficient fuel.  (The key soundness
property of the `json.loads` model on `json.dumps` output.) -/
def ParsesBack (v : Json) : Prop :=
  ∀ fuel rest, (dumpsV v).length ≤ fuel → noLeadingDigit rest = true →
    parseValue fuel (dumpsV v ++ rest) = some (v, rest)

/-! ## Concrete instances used to evaluate the model -/

/-- A due-date configuration: due at instant 0, multiplier 3. -/
def argsPenalty : Args := { due := true, dueTime := 0, multiplier := 3 }

/-- No due-date configuration supplied. -/
def argsNoDue : Args := { due := false, dueTime := 0, multiplier := 1 }

/-- A successful matching workflow run. -/
def runS : WorkflowRun :=
  { name := "CI main.yml", conclusion := some "success",
    head_commit_timestamp := 100 }

/-- A failed matching workflow run. -/
def runF : WorkflowRun :=
  { name := "CI main.yml", conclusion := some "failure",
    head_commit_timestamp := 100 }

/-- A cancelled matching workflow run. -/
def runC : WorkflowRun :=
  { name := "CI main.yml", conclusion := some "cancelled",
    head_commit_timestamp := 100 }

/-- A collaborator environment where every lookup succeeds:
`hw1-alice` has a successful run, `hw1-bob` a failed one, `hw1-carol` a
cancelled one, and every other repository has no runs at all. -/
def envHappy : LoopEnv :=
  { repoRuns := fun r =>
      if r = "hw1-alice" then { total_count := 1, workflow_runs := [runS] }
      else if r = "hw1-bob" then { total_count := 1, workflow_runs := [runF] }
      else if r = "hw1-carol" then { total_count := 1, workflow_runs := [runC] }
      else { total_count := 0, workflow_runs := [] }
    usernameMap := some [("alice", "ea"), ("bob", "eb"), ("carol", "ec")]
    get_assignment := .ok ()
    getUser := fun e =>
      if e = "ea" then .ok 11 else if e = "eb" then .ok 22
      else if e = "ec" then .ok 33 else .error .otherError
    getSubmission := fun _ => .ok ()
    editSubmission := fun _ _ => .ok () }

/-- Like `envHappy` but the username map lacks `alice` (the derived
owner-handle of `hw1-alice`). -/
def envNoAlice : LoopEnv :=
  { envHappy with usernameMap := some [("bob", "eb"), ("carol", "ec")] }

/-- A small well-formed credential document. -/
def docExample : Json :=
  .obj [(['t', 'y', 'p', 'e'], .str ['s', 'a']),
        (['i', 'd'], .num 7),
        (['o', 'k'], .bool true),
        (['x', 's'], .arr [.null, .num (-42)])]

/-! ## Theorems: string utilities and owner-handle derivation -/

theorem splitCh_ne_nil (sep : Char) (l : List Char) : splitCh sep l ≠ [] := by
  cases l with
  | nil => simp [splitCh]
  | cons c cs =>
    simp only [splitCh]
    split
    · simp
    · split <;> simp_all

theorem splitCh_of_not_mem (sep : Char) (l : List Char) (h : sep ∉ l) :
    splitCh sep l = [l] := by
  induction l with
  | nil => rfl
  | cons c cs ih =>
    simp only [List.mem_cons, not_or] at h
    have hcs : ¬(c = sep) := fun hc => h.1 hc.symm
    simp only [splitCh, if_neg hcs, ih h.2]

theorem splitCh_append (sep : Char) (a b : List Char) (h : sep ∉ a) :
    splitCh sep (a ++ sep :: b) = a :: splitCh sep b := by
  induction a with
  | nil => simp [splitCh]
  | cons c cs ih =>
    simp only [List.mem_cons, not_or] at h
    have hcs : ¬(c = sep) := fun hc => h.1 hc.symm
    simp only [List.cons_append, splitCh, if_neg hcs]
    rw [show cs.append (sep :: b) = cs ++ sep :: b from rfl, ih h.2]

theorem joinCh_splitCh (sep : Char) (l : List Char) :
    joinCh sep (splitCh sep l) = l := by
  induction l with
  | nil => rfl
  | cons c cs ih =>
    simp only [splitCh]
    split
    · rename_i hc
      subst hc
      rcases hcs : splitCh c cs with _ | ⟨t, ts⟩
      · exact absurd hcs (splitCh_ne_nil c cs)
      · rw [hcs] at ih
        cases ts with
        | nil => simpa [joinCh] using ih
        | cons t' ts' => simpa [joinCh] using ih
    · rcases hcs : splitCh sep cs with _ | ⟨t, ts⟩
      · exact absurd hcs (splitCh_ne_nil sep cs)
      · rw [hcs] at ih
        cases ts with
        | nil => simpa [joinCh] using ih
        | cons t' ts' => simpa [joinCh] using ih

theorem stripL_append (head rest : List Char) (h : '-' ∉ head) :
    stripL (head ++ '-' :: rest) = lowerL rest := by
  simp only [stripL, splitCh_append '-' head rest h, List.drop_succ_cons,
    List.drop_zero, joinCh_splitCh]

theorem stripL_of_no_hyphen (l : List Char) (h : '-' ∉ l) : stripL l = [] := by
  simp [stripL, splitCh_of_not_mem '-' l h, joinCh, lowerL]

/-- Claim C7: `strip_github_username` removes exactly the first
hyphen-delimited token and lower-cases the remainder; `"hw1-janedoe"`
maps to `"janedoe"` and `"hw1-jane-doe"` to `"jane-doe"` (internal
hyphens after the first are preserved).  The general parts: for a
hyphen-free first token the rest survives verbatim up to lower-casing,
and a name without any hyphen loses everything (its single token is the
"first token"). -/
theorem claim_C7 :
    (strip_github_username "hw1-janedoe" = "janedoe" ∧
     strip_github_username "hw1-jane-doe" = "jane-doe") ∧
    (∀ head rest : List Char, '-' ∉ head →
      stripL (head ++ '-' :: rest) = lowerL rest) ∧
    (∀ l : List Char, '-' ∉ l → stripL l = []) :=
  ⟨⟨by decide, by decide⟩, stripL_append, stripL_of_no_hyphen⟩

/-- Witness for claim C7 at `"hw1" ++ "-" ++ "Jane"` and at the
hyphen-free name `"abc"`. -/
theorem claim_C7_witness :
    ('-' ∉ ['h', 'w', '1'] ∧
      stripL (['h', 'w', '1'] ++ '-' :: ['J', 'a', 'n', 'e']) =
        lowerL ['J', 'a', 'n', 'e']) ∧
    ('-' ∉ ['a', 'b', 'c'] ∧ stripL ['a', 'b', 'c'] = []) :=
  ⟨⟨by decide, claim_C7.2.1 ['h', 'w', '1'] ['J', 'a', 'n', 'e'] (by decide)⟩,
   ⟨by decide, claim_C7.2.2 ['a', 'b', 'c'] (by decide)⟩⟩

/-- Claim C8: identity lookup is case-insensitive.  Keys are lower-cased
at insertion (`lowerRows`, used by both the sheet and the csv loader) and
the lookup key is lower-cased (by `strip_github_username`, which
lower-cases the owner-handle before the `.loc` access), so (i) lookups
at two case-variants of a handle agree, (ii) any case-variant of any
inserted username resolves successfully, and (iii) concretely, a mapping
built from the mixed-case row `("AlIcE", "S123")` resolves `"Alice"`,
`"ALICE"` and `"alice"` to the same institutional ID. -/
theorem claim_C8 :
    (∀ (rows : List (String × String)) (h₁ h₂ : String),
      strLower h₁ = strLower h₂ →
      lookupLoc (some (lowerRows rows)) (strLower h₁) =
        lookupLoc (some (lowerRows rows)) (strLower h₂)) ∧
    (∀ (rows : List (String × String)) (u e q : String), (u, e) ∈ rows →
      strLower q = strLower u →
      ∃ e', lookupLoc (some (lowerRows rows)) (strLower q) = .ok e') ∧
    (lookupLoc (some (lowerRows [("AlIcE", "S123")])) (strLower "Alice") =
        .ok "s123" ∧
     lookupLoc (some (lowerRows [("AlIcE", "S123")])) (strLower "ALICE") =
        .ok "s123" ∧
     lookupLoc (some (lowerRows [("AlIcE", "S123")])) (strLower "alice") =
        .ok "s123") := by
  refine ⟨?_, ?_, by decide, by decide, by decide⟩
  · intro rows h₁ h₂ h
    rw [h]
  · intro rows u e q hmem hq
    have hmem2 : (strLower u, strLower e) ∈ lowerRows rows :=
      List.mem_map_of_mem (fun p => (strLower p.1, strLower p.2)) hmem
    have hsome :
        (List.find? (fun p => p.1 == strLower q) (lowerRows rows)).isSome := by
      rw [List.find?_isSome]
      exact ⟨(strLower u, strLower e), hmem2, by simp [hq]⟩
    obtain ⟨p, hp⟩ := Option.isSome_iff_exists.mp hsome
    exact ⟨p.2, by simp [lookupLoc, hp]⟩

/-- Witness for claim C8: case-variant lookups agree, and the variant
`"ALICE"` of the inserted mixed-case `"AlIcE"` resolves. -/
theorem claim_C8_witness :
    lookupLoc (some (lowerRows [("AlIcE", "S123")])) (strLower "BoB") =
      lookupLoc (some (lowerRows [("AlIcE", "S123")])) (strLower "bob") ∧
    ∃ e', lookupLoc (some (lowerRows [("AlIcE", "S123")])) (strLower "ALICE") =
      .ok e' :=
  ⟨claim_C8.1 [("AlIcE", "S123")] "BoB" "bob" (by decide),
   claim_C8.2.1 [("AlIcE", "S123")] "AlIcE" "S123" "ALICE" (by decide)
     (by decide)⟩

/-- Claim C6 counterexample: a permission/network failure of the remote
sheet pipeline (`gspread.exceptions.APIError`, not a `ValueError`
subclass) is *not* caught by `read_username_map`'s
`except ValueError` - it propagates out of the call instead of being
surfaced as a non-fatal message. -/
theorem claim_C6_counterexample :
    read_username_map none (some "creds") (some "PGE383") (.error .apiError) =
      .error .apiError := rfl

/-- Claim C6 amended: only a `ValueError` raised while opening or
reading the remote spreadsheet is caught inside `read_username_map` and
surfaced as a non-fatal message (the call then returns no mapping); a
successful read returns the lower-cased mapping; every other exception
type (network or permission errors included) propagates. -/
theorem claim_C6_amended :
    ∀ (creds classname : String) (rows : List (String × String)),
      (read_username_map none (some creds) (some classname)
          (.error .valueError) = .ok (none, [.errorReadingGoogleSheet])) ∧
      (read_username_map none (some creds) (some classname) (.ok rows) =
        .ok (some (lowerRows rows), [])) ∧
      (∀ e : PyError, e ≠ .valueError →
        read_username_map none (some creds) (some classname) (.error e) =
          .error e) := by
  intro creds classname rows
  refine ⟨rfl, rfl, ?_⟩
  intro e he
  cases e <;> first | rfl | exact absurd rfl he

/-- Witness for claim C6 amended at a concrete credential string, class
name and non-`ValueError` exception. -/
theorem claim_C6_amended_witness :
    read_username_map none (some "creds") (some "PGE383")
        (.error .valueError) = .ok (none, [.errorReadingGoogleSheet]) ∧
    read_username_map none (some "creds") (some "PGE383")
        (.error .otherError) = .error .otherError :=
  ⟨(claim_C6_amended "creds" "PGE383" []).1,
   (claim_C6_amended "creds" "PGE383" []).2.2 .otherError (by decide)⟩

/-! ## Theorems: the scoring engine -/

/-- Claim C1 counterexample: with a due date at instant 0 and multiplier
3, a commit 60 seconds *before* the due time - all three relative
components satisfy the default comparison `a <= 0`, i.e. on time by the
claim's reading - makes `score_multiplier` return the configured
multiplier 3, not the claimed 1.0.  (The penalty direction in the code
is the reverse of the claim.) -/
theorem claim_C1_counterexample :
    ((relativedelta (-60) argsPenalty.dueTime).hours ≤ 0 ∧
     (relativedelta (-60) argsPenalty.dueTime).minutes ≤ 0 ∧
     (relativedelta (-60) argsPenalty.dueTime).seconds ≤ 0) ∧
    argsPenalty.due = true ∧
    score_multiplier argsPenalty (some (-60)) = .ok 3 ∧ (3 : Rat) ≠ 1 := by
  refine ⟨by decide, rfl, by decide, by decide⟩

/-- Claim C1 amended: for a due-date configuration, when all three of
the hour, minute and second components of `relativedelta(commit, due)`
satisfy the default comparison `a <= 0`, `score_multiplier` returns the
*configured multiplier*; when the comparison fails on any component it
returns 1.0.  (Direction reversed with respect to the original claim.) -/
theorem claim_C1_amended (args : Args) (t : Int) (hdue : args.due = true) :
    (((relativedelta t args.dueTime).hours ≤ 0 ∧
      (relativedelta t args.dueTime).minutes ≤ 0 ∧
      (relativedelta t args.dueTime).seconds ≤ 0) →
        score_multiplier args (some t) = .ok args.multiplier) ∧
    (¬((relativedelta t args.dueTime).hours ≤ 0 ∧
       (relativedelta t args.dueTime).minutes ≤ 0 ∧
       (relativedelta t args.dueTime).seconds ≤ 0) →
        score_multiplier args (some t) = .ok 1) := by
  constructor
  · rintro ⟨h1, h2, h3⟩
    simp [score_multiplier, hdue, h1, h2, h3]
  · intro h
    have hcond :
        (decide ((relativedelta t args.dueTime).hours ≤ 0) &&
         decide ((relativedelta t args.dueTime).minutes ≤ 0) &&
         decide ((relativedelta t args.dueTime).seconds ≤ 0)) = false := by
      rcases Bool.eq_false_or_eq_true
        (decide ((relativedelta t args.dueTime).hours ≤ 0) &&
         decide ((relativedelta t args.dueTime).minutes ≤ 0) &&
         decide ((relativedelta t args.dueTime).seconds ≤ 0)) with hb | hb
      · simp only [Bool.and_eq_true, decide_eq_true_eq] at hb
        exact absurd ⟨hb.1.1, hb.1.2, hb.2⟩ h
      · exact hb
    simp [score_multiplier, hdue, hcond]

/-- Witness for claim C1 amended: at `argsPenalty` a commit 60 seconds
early yields the multiplier 3 and a commit 60 seconds late yields 1.0. -/
theorem claim_C1_amended_witness :
    score_multiplier argsPenalty (some (-60)) = .ok 3 ∧
    score_multiplier argsPenalty (some 60) = .ok 1 :=
  ⟨(claim_C1_amended argsPenalty (-60) rfl).1 (by decide),
   (claim_C1_amended argsPenalty 60 rfl).2 (by decide)⟩

/-- Claim C9: a commit an exact positive whole number of days after the
due time leaves the hour, minute and second components of the relative
difference at zero while its days component is positive, so
`score_multiplier` returns exactly what it returns for an on-time commit
(the configured multiplier, by the code's actual direction): the days
component never influences the result. -/
theorem claim_C9 (args : Args) (k : Int) (hdue : args.due = true)
    (hk : 0 < k) :
    (relativedelta (args.dueTime + 86400 * k) args.dueTime).hours = 0 ∧
    (relativedelta (args.dueTime + 86400 * k) args.dueTime).minutes = 0 ∧
    (relativedelta (args.dueTime + 86400 * k) args.dueTime).seconds = 0 ∧
    0 < (relativedelta (args.dueTime + 86400 * k) args.dueTime).days ∧
    score_multiplier args (some (args.dueTime + 86400 * k)) =
      score_multiplier args (some args.dueTime) ∧
    score_multiplier args (some (args.dueTime + 86400 * k)) =
      .ok args.multiplier := by
  have hd : args.dueTime + 86400 * k - args.dueTime = 86400 * k := by ring
  have habs : |args.dueTime + 86400 * k - args.dueTime| = 86400 * k := by
    rw [hd]; exact abs_of_pos (by positivity)
  have hlt : ¬(args.dueTime + 86400 * k - args.dueTime < 0) := by omega
  have h86400 : (86400 : Int) * k % 86400 = 0 := Int.mul_emod_right 86400 k
  have h3600 : (86400 : Int) * k % 3600 = 0 := by
    have : (86400 : Int) * k = 3600 * (24 * k) := by ring
    rw [this]; exact Int.mul_emod_right 3600 (24 * k)
  have h60 : (86400 : Int) * k % 60 = 0 := by
    have : (86400 : Int) * k = 60 * (1440 * k) := by ring
    rw [this]; exact Int.mul_emod_right 60 (1440 * k)
  have hdays : (86400 : Int) * k / 86400 = k := Int.mul_ediv_cancel_left k (by norm_num)
  have hrel : relativedelta (args.dueTime + 86400 * k) args.dueTime =
      { days := k, hours := 0, minutes := 0, seconds := 0 } := by
    simp only [relativedelta, habs, if_neg hlt, h86400, h3600, h60, hdays]
    norm_num
  have hrel0 : relativedelta args.dueTime args.dueTime =
      { days := 0, hours := 0, minutes := 0, seconds := 0 } := by
    simp [relativedelta]
  refine ⟨by rw [hrel], by rw [hrel], by rw [hrel], by rw [hrel]; exact hk,
    ?_, ?_⟩
  · simp [score_multiplier, hdue, hrel, hrel0]
  · simp [score_multiplier, hdue, hrel]

/-- Witness for claim C9 at `argsPenalty` and two whole days. -/
theorem claim_C9_witness :
    (relativedelta (argsPenalty.dueTime + 86400 * 2)
      argsPenalty.dueTime).hours = 0 ∧
    (relativedelta (argsPenalty.dueTime + 86400 * 2)
      argsPenalty.dueTime).minutes = 0 ∧
    (relativedelta (argsPenalty.dueTime + 86400 * 2)
      argsPenalty.dueTime).seconds = 0 ∧
    0 < (relativedelta (argsPenalty.dueTime + 86400 * 2)
      argsPenalty.dueTime).days ∧
    score_multiplier argsPenalty (some (argsPenalty.dueTime + 86400 * 2)) =
      score_multiplier argsPenalty (some argsPenalty.dueTime) ∧
    score_multiplier argsPenalty (some (argsPenalty.dueTime + 86400 * 2)) =
      .ok argsPenalty.multiplier :=
  claim_C9 argsPenalty 2 rfl (by decide)


/-! ## Theorems: workflow reader and grading loop -/

theorem tc_fst_some (resp : RunsResponse) (wfn : String) (c : String)
    (h : (get_latest_workflow_commit_time_and_conclusion resp wfn).2 = some c) :
    ∃ t, (get_latest_workflow_commit_time_and_conclusion resp wfn).1 = some t := by
  unfold get_latest_workflow_commit_time_and_conclusion at h ⊢
  cases hr : get_latest_workflow_run resp wfn with
  | none => rw [hr] at h; simp at h
  | some run => exact ⟨run.head_commit_timestamp, rfl⟩

theorem score_multiplier_ok (args : Args) (t : Int) :
    ∃ m, score_multiplier args (some t) = .ok m := by
  unfold score_multiplier
  by_cases h : args.due
  · simp only [h, if_true]
    split
    · exact ⟨args.multiplier, rfl⟩
    · exact ⟨1, rfl⟩
  · simp [h]

theorem gradeRepo_skip (env : LoopEnv) (args : Args) (repo : String)
    (sv : Option Rat)
    (htc : (get_latest_workflow_commit_time_and_conclusion
      (env.repoRuns repo)).2 = none) :
    gradeRepo env args repo sv = .ok (sv, [], [.noRuns repo]) := by
  rcases hp : get_latest_workflow_commit_time_and_conclusion
    (env.repoRuns repo) with ⟨ct, concl⟩
  rw [hp] at htc
  simp only at htc
  subst htc
  simp [gradeRepo, hp]

/-- Claim C4: with a consistent runs response (`total_count` equal to the
array length), (i) when no run's display name contains the workflow
filename - in particular when there are no runs at all - the outcome is
absent on both components; (ii) otherwise the outcome is the first
matching run in response order, carrying its head-commit timestamp and
conclusion verbatim; and (iii) a repository with an absent conclusion is
skipped by the grading loop with a no-runs message - nothing is posted,
in particular it is never scored 0. -/
theorem claim_C4 :
    (∀ (resp : RunsResponse) (wfn : String),
      resp.total_count = resp.workflow_runs.length →
      (∀ r ∈ resp.workflow_runs, pyIn wfn r.name = false) →
      get_latest_workflow_commit_time_and_conclusion resp wfn =
        (none, none)) ∧
    (∀ (resp : RunsResponse) (wfn : String) (run : WorkflowRun),
      resp.total_count = resp.workflow_runs.length →
      resp.workflow_runs.find? (fun r => pyIn wfn r.name) = some run →
      get_latest_workflow_commit_time_and_conclusion resp wfn =
        (some run.head_commit_timestamp, run.conclusion)) ∧
    (∀ (env : LoopEnv) (args : Args) (repo : String) (sv : Option Rat),
      (get_latest_workflow_commit_time_and_conclusion
        (env.repoRuns repo)).2 = none →
      gradeRepo env args repo sv = .ok (sv, [], [.noRuns repo])) := by
  refine ⟨?_, ?_, fun env args repo sv htc => gradeRepo_skip env args repo sv htc⟩
  · intro resp wfn hcount hnone
    have hfind : resp.workflow_runs.find? (fun r => pyIn wfn r.name) = none := by
      rw [List.find?_eq_none]
      intro r hr
      simp [hnone r hr]
    unfold get_latest_workflow_commit_time_and_conclusion
      get_latest_workflow_run
    by_cases h0 : resp.total_count = 0
    · simp [h0]
    · simp [h0, hfind]
  · intro resp wfn run hcount hfind
    have hne : resp.workflow_runs ≠ [] := by
      intro hnil
      rw [hnil] at hfind
      simp at hfind
    have h0 : ¬(resp.total_count = 0) := by
      rw [hcount]
      simpa using hne
    unfold get_latest_workflow_commit_time_and_conclusion
      get_latest_workflow_run
    simp [h0, hfind]

/-- Witness for claim C4: a response whose only run does not match, a
response whose second run is the first match, and a repository with no
runs being skipped. -/
theorem claim_C4_witness :
    get_latest_workflow_commit_time_and_conclusion
      ⟨1, [⟨"lint", some "success", 5⟩]⟩ "main.yml" = (none, none) ∧
    get_latest_workflow_commit_time_and_conclusion
      ⟨2, [⟨"lint", some "success", 5⟩, runS]⟩ "main.yml" =
        (some runS.head_commit_timestamp, runS.conclusion) ∧
    gradeRepo envHappy argsNoDue "hw1-dave" none =
      .ok (none, [], [.noRuns "hw1-dave"]) :=
  ⟨claim_C4.1 ⟨1, [⟨"lint", some "success", 5⟩]⟩ "main.yml" (by decide)
      (by decide),
   claim_C4.2.1 ⟨2, [⟨"lint", some "success", 5⟩, runS]⟩ "main.yml" runS
      (by decide) (by decide),
   claim_C4.2.2 envHappy argsNoDue "hw1-dave" none (by decide)⟩

/-- Claim C2: (i) an absent conclusion skips the repository entirely -
no submission attempt, a no-runs message; (ii) a `"success"` conclusion
with no due-date configuration posts exactly the score 1.0 (when the
Canvas collaborators cooperate); (iii) a `"failure"` conclusion posts
exactly 0.0, whatever the due-date configuration. -/
theorem claim_C2 :
    (∀ (env : LoopEnv) (args : Args) (repo : String) (sv : Option Rat),
      (get_latest_workflow_commit_time_and_conclusion
        (env.repoRuns repo)).2 = none →
      gradeRepo env args repo sv = .ok (sv, [], [.noRuns repo])) ∧
    (∀ (env : LoopEnv) (args : Args) (repo : String) (sv : Option Rat)
      (eid : String) (cid : Nat),
      args.due = false →
      (get_latest_workflow_commit_time_and_conclusion
        (env.repoRuns repo)).2 = some "success" →
      env.get_assignment = .ok () →
      lookupLoc env.usernameMap (strip_github_username repo) = .ok eid →
      env.getUser eid = .ok cid →
      env.getSubmission cid = .ok () →
      env.editSubmission cid 1 = .ok () →
      gradeRepo env args repo sv =
        .ok (some 1, [(cid, 1)], [.updated cid 1])) ∧
    (∀ (env : LoopEnv) (args : Args) (repo : String) (sv : Option Rat)
      (eid : String) (cid : Nat),
      (get_latest_workflow_commit_time_and_conclusion
        (env.repoRuns repo)).2 = some "failure" →
      env.get_assignment = .ok () →
      lookupLoc env.usernameMap (strip_github_username repo) = .ok eid →
      env.getUser eid = .ok cid →
      env.getSubmission cid = .ok () →
      env.editSubmission cid 0 = .ok () →
      gradeRepo env args repo sv =
        .ok (some 0, [(cid, 0)], [.updated cid 0])) := by
  refine ⟨fun env args repo sv htc => gradeRepo_skip env args repo sv htc,
    ?_, ?_⟩
  · intro env args repo sv eid cid hdue htc hga hl hu hs he
    rcases hp : get_latest_workflow_commit_time_and_conclusion
      (env.repoRuns repo) with ⟨ct, concl⟩
    rw [hp] at htc
    simp only at htc
    subst htc
    have hsm : score_multiplier args ct = .ok 1 := by
      simp [score_multiplier, hdue]
    simp [gradeRepo, hp, hsm, hga, tryBody, hl, hu, hs, one_mul, he]
  · intro env args repo sv eid cid htc hga hl hu hs he
    obtain ⟨t, ht⟩ := tc_fst_some _ _ _ htc
    rcases hp : get_latest_workflow_commit_time_and_conclusion
      (env.repoRuns repo) with ⟨ct, concl⟩
    rw [hp] at htc ht
    simp only at htc ht
    subst htc
    subst ht
    obtain ⟨m, hm⟩ := score_multiplier_ok args t
    simp [gradeRepo, hp, hm, hga, tryBody, hl, hu, hs, he,
      (by decide : ("failure" == "success") = false)]

/-- Witness for claim C2: in the all-successful environment, the
repository with no runs is skipped, the successful one is posted 1.0,
the failed one is posted 0.0. -/
theorem claim_C2_witness :
    gradeRepo envHappy argsNoDue "hw1-dave" none =
      .ok (none, [], [.noRuns "hw1-dave"]) ∧
    gradeRepo envHappy argsNoDue "hw1-alice" none =
      .ok (some 1, [(11, 1)], [.updated 11 1]) ∧
    gradeRepo envHappy argsNoDue "hw1-bob" (some 1) =
      .ok (some 0, [(22, 0)], [.updated 22 0]) :=
  ⟨claim_C2.1 envHappy argsNoDue "hw1-dave" none (by decide),
   claim_C2.2.1 envHappy argsNoDue "hw1-alice" none "ea" 11 rfl (by decide)
     rfl (by decide) (by decide) rfl rfl,
   claim_C2.2.2 envHappy argsNoDue "hw1-bob" (some 1) "eb" 22 (by decide)
     rfl (by decide) (by decide) rfl rfl⟩

theorem tryBody_fails (env : LoopEnv) (gu concl : String) (m : Rat)
    (sv : Option Rat) (hfail : TryFails env gu) :
    ∃ sv', tryBody env gu concl m sv = (sv', [], []) := by
  rcases hfail with ⟨e, hl⟩ | ⟨eid, e, hl, hu⟩ | ⟨eid, cid, e, hl, hu, hs⟩ |
    ⟨eid, cid, e, hl, hu, hs, he⟩
  · exact ⟨sv, by simp [tryBody, hl]⟩
  · exact ⟨sv, by simp [tryBody, hl, hu]⟩
  · exact ⟨sv, by simp [tryBody, hl, hu, hs]⟩
  · by_cases h1 : concl = "success"
    · exact ⟨some (1 * m), by simp [tryBody, hl, hu, hs, h1, he]⟩
    · by_cases h2 : concl = "failure"
      · exact ⟨some 0, by simp [tryBody, hl, hu, hs, h1, h2, he]⟩
      · cases sv with
        | none => exact ⟨none, by simp [tryBody, hl, hu, hs, h1, h2]⟩
        | some s => exact ⟨some s, by simp [tryBody, hl, hu, hs, h1, h2, he]⟩

/-- Claim C5: when a repository's try-block fails - the owner-handle is
missing from the identity mapping (or no mapping loaded), or the Canvas
user resolution, submission fetch, or grade posting raises - while the
pre-`try` steps succeed, that repository's submission alone is aborted:
`gradeRepo` returns normally with nothing posted and nothing printed,
and the batch over the remaining repositories proceeds exactly as if
that repository had only (possibly) updated the leaked `score`
variable. -/
theorem claim_C5 (env : LoopEnv) (args : Args) (repo : String)
    (repos : List String) (sv : Option Rat) (concl : String)
    (htc : (get_latest_workflow_commit_time_and_conclusion
      (env.repoRuns repo)).2 = some concl)
    (hga : env.get_assignment = .ok ())
    (hfail : TryFails env (strip_github_username repo)) :
    ∃ sv', gradeRepo env args repo sv = .ok (sv', [], []) ∧
      gradeAll env args sv (repo :: repos) = gradeAll env args sv' repos := by
  obtain ⟨t, ht⟩ := tc_fst_some _ _ _ htc
  rcases hp : get_latest_workflow_commit_time_and_conclusion
    (env.repoRuns repo) with ⟨ct, concl'⟩
  rw [hp] at htc ht
  simp only at htc ht
  subst htc
  subst ht
  obtain ⟨m, hm⟩ := score_multiplier_ok args t
  obtain ⟨sv', hsv'⟩ :=
    tryBody_fails env (strip_github_username repo) concl m sv hfail
  have hrepo : gradeRepo env args repo sv = .ok (sv', [], []) := by
    simp [gradeRepo, hp, hm, hga, hsv']
  refine ⟨sv', hrepo, ?_⟩
  simp only [gradeAll, hrepo]
  cases gradeAll env args sv' repos with
  | error e => rfl
  | ok res => simp

/-- Witness for claim C5: `hw1-alice` has a successful run but its
owner-handle is missing from the identity mapping; its submission is
aborted and `hw1-bob` is still processed. -/
theorem claim_C5_witness :
    ∃ sv', gradeRepo envNoAlice argsNoDue "hw1-alice" none =
        .ok (sv', [], []) ∧
      gradeAll envNoAlice argsNoDue none ["hw1-alice", "hw1-bob"] =
        gradeAll envNoAlice argsNoDue sv' ["hw1-bob"] :=
  claim_C5 envNoAlice argsNoDue "hw1-alice" ["hw1-bob"] none "success"
    (by decide) rfl (Or.inl ⟨.keyError, by decide⟩)

/-- Claim C10 counterexample: in the all-successful environment,
`hw1-alice` (conclusion `"success"`) is graded first and assigns the
Python variable `score`; `hw1-carol`'s conclusion `"cancelled"` is
neither recognised branch, so `score` keeps its stale value from the
previous iteration and `submission.edit` *succeeds*, posting grade 1 for
carol's Canvas id 33 - a submission edit carrying a score for a
repository with an unrecognized conclusion. -/
theorem claim_C10_counterexample :
    (get_latest_workflow_commit_time_and_conclusion
      (envHappy.repoRuns "hw1-carol")).2 = some "cancelled" ∧
    "cancelled" ≠ "success" ∧ "cancelled" ≠ "failure" ∧
    gradeAll envHappy argsNoDue none ["hw1-alice", "hw1-carol"] =
      .ok (some 1, [(11, 1), (33, 1)],
        [.updated 11 1, .updated 33 1]) := by
  refine ⟨by decide, by decide, by decide, ?_⟩
  have h : gradeAll envHappy argsNoDue none ["hw1-alice", "hw1-carol"] =
      .ok (some ((1 : Rat) * 1), [(11, (1 : Rat) * 1), (33, (1 : Rat) * 1)],
        [.updated 11 ((1 : Rat) * 1), .updated 33 ((1 : Rat) * 1)]) := rfl
  rwa [one_mul] at h

/-- Claim C10 amended: a repository whose latest matching run's
conclusion is present but neither `"success"` nor `"failure"` has no
score computed for it, and - provided no earlier iteration of the same
run already assigned the leaked `score` variable - no submission edit
for it succeeds (the edit raises `NameError` on the unassigned `score`
and is swallowed); when an earlier iteration did assign `score`, the
stale value is posted instead (see the counterexample). -/
theorem claim_C10_amended (env : LoopEnv) (args : Args) (repo : String)
    (concl : String)
    (htc : (get_latest_workflow_commit_time_and_conclusion
      (env.repoRuns repo)).2 = some concl)
    (h1 : concl ≠ "success") (h2 : concl ≠ "failure")
    (hga : env.get_assignment = .ok ()) :
    gradeRepo env args repo none = .ok (none, [], []) := by
  obtain ⟨t, ht⟩ := tc_fst_some _ _ _ htc
  rcases hp : get_latest_workflow_commit_time_and_conclusion
    (env.repoRuns repo) with ⟨ct, concl'⟩
  rw [hp] at htc ht
  simp only at htc ht
  subst htc
  subst ht
  obtain ⟨m, hm⟩ := score_multiplier_ok args t
  cases hl : lookupLoc env.usernameMap (strip_github_username repo) with
  | error e => simp [gradeRepo, hp, hm, hga, tryBody, hl]
  | ok eid =>
    cases hu : env.getUser eid with
    | error e => simp [gradeRepo, hp, hm, hga, tryBody, hl, hu]
    | ok cid =>
      cases hs : env.getSubmission cid with
      | error e => simp [gradeRepo, hp, hm, hga, tryBody, hl, hu, hs]
      | ok u => simp [gradeRepo, hp, hm, hga, tryBody, hl, hu, hs, h1, h2]

/-- Witness for claim C10 amended: `hw1-carol` (conclusion
`"cancelled"`) processed with the `score` variable still unassigned
posts nothing. -/
theorem claim_C10_amended_witness :
    gradeRepo envHappy argsNoDue "hw1-carol" none = .ok (none, [], []) :=
  claim_C10_amended envHappy argsNoDue "hw1-carol" "cancelled" (by decide)
    (by decide) (by decide) rfl

/-! ## Theorems: base64 and JSON building blocks -/

theorem hexVal_hexDig : ∀ n, n < 16 → hexVal (hexDig n) = some n := by decide

theorem b64Val_b64Char : ∀ n, n < 64 → b64Val (b64Char n) = some n := by decide

theorem b64Char_ne_pad : ∀ n, n < 64 → b64Char n ≠ '=' := by decide

theorem b64Char_lt_128 : ∀ n, n < 64 → (b64Char n).toNat < 128 := by decide

theorem b64_roundtrip :
    ∀ bs : List Nat, (∀ b ∈ bs, b < 256) →
      b64decodeChars (b64encodeBytes bs) = some bs := by
  intro bs
  induction bs using b64encodeBytes.induct with
  | case1 => intro _; rfl
  | case2 b0 =>
    intro hb
    have h0 : b0 < 256 := hb b0 (by simp)
    simp only [b64encodeBytes, b64decodeChars,
      b64Val_b64Char _ (by omega : b0 / 4 < 64),
      b64Val_b64Char _ (by omega : b0 % 4 * 16 < 64)]
    simp
    omega
  | case3 b0 b1 =>
    intro hb
    have h0 : b0 < 256 := hb b0 (by simp)
    have h1 : b1 < 256 := hb b1 (by simp)
    simp only [b64encodeBytes, b64decodeChars,
      b64Val_b64Char _ (by omega : b0 / 4 < 64),
      b64Val_b64Char _ (by omega : b0 % 4 * 16 + b1 / 16 < 64),
      b64Val_b64Char _ (by omega : b1 % 16 * 4 < 64)]
    simp [b64Char_ne_pad _ (by omega : b1 % 16 * 4 < 64)]
    omega
  | case4 b0 b1 b2 rest ih =>
    intro hb
    have h0 : b0 < 256 := hb b0 (by simp)
    have h1 : b1 < 256 := hb b1 (by simp)
    have h2 : b2 < 256 := hb b2 (by simp)
    have hrest : b64decodeChars (b64encodeBytes rest) = some rest :=
      ih (fun b hbmem => hb b (by simp [hbmem]))
    simp only [b64encodeBytes, b64decodeChars,
      b64Val_b64Char _ (by omega : b0 / 4 < 64),
      b64Val_b64Char _ (by omega : b0 % 4 * 16 + b1 / 16 < 64),
      b64Val_b64Char _ (by omega : b1 % 16 * 4 + b2 / 64 < 64),
      b64Val_b64Char _ (by omega : b2 % 64 < 64), hrest]
    simp [b64Char_ne_pad _ (by omega : b1 % 16 * 4 + b2 / 64 < 64),
      b64Char_ne_pad _ (by omega : b2 % 64 < 64)]
    refine ⟨by omega, by omega, by omega⟩

theorem digitChar_facts : ∀ m, m < 10 →
    (Char.ofNat (48 + m)).isDigit = true ∧
    (Char.ofNat (48 + m)).toNat = 48 + m := by decide

theorem digitsVal_append_one (ds : List Char) (d : Char) :
    digitsVal (ds ++ [d]) = digitsVal ds * 10 + (d.toNat - 48) := by
  simp [digitsVal, List.foldl_append]

theorem natToCharsAux_spec : ∀ fuel n, n ≤ fuel →
    natToCharsAux fuel n ≠ [] ∧
    (∀ c ∈ natToCharsAux fuel n, c.isDigit = true) ∧
    digitsVal (natToCharsAux fuel n) = n := by
  intro fuel
  induction fuel with
  | zero =>
    intro n hn
    have h0 : n = 0 := by omega
    subst h0
    refine ⟨by simp [natToCharsAux], ?_, by decide⟩
    intro c hc
    simp [natToCharsAux] at hc
    subst hc
    decide
  | succ fuel ih =>
    intro n hn
    by_cases h10 : n < 10
    · simp only [natToCharsAux, if_pos h10]
      refine ⟨by simp, ?_, ?_⟩
      · intro c hc
        simp at hc
        subst hc
        exact (digitChar_facts n h10).1
      · simp [digitsVal, (digitChar_facts n h10).2]
    · obtain ⟨hne, hdig, hval⟩ := ih (n / 10) (by omega)
      simp only [natToCharsAux, if_neg h10]
      have hmod := digitChar_facts (n % 10) (by omega)
      refine ⟨by simp, ?_, ?_⟩
      · intro c hc
        simp at hc
        rcases hc with hc | hc
        · exact hdig c hc
        · subst hc; exact hmod.1
      · rw [digitsVal_append_one, hval, hmod.2]
        omega

theorem natToChars_ne_nil (n : Nat) : natToChars n ≠ [] :=
  (natToCharsAux_spec n n le_rfl).1

theorem natToChars_digits (n : Nat) :
    ∀ c ∈ natToChars n, c.isDigit = true :=
  (natToCharsAux_spec n n le_rfl).2.1

theorem digitsVal_natToChars (n : Nat) : digitsVal (natToChars n) = n :=
  (natToCharsAux_spec n n le_rfl).2.2

theorem spanDigits_of_boundary (rest : List Char)
    (hb : noLeadingDigit rest = true) : spanDigits rest = ([], rest) := by
  cases rest with
  | nil => rfl
  | cons c t =>
    simp only [noLeadingDigit, Bool.not_eq_true'] at hb
    simp [spanDigits, hb]

theorem spanDigits_append (ds rest : List Char)
    (hd : ∀ c ∈ ds, c.isDigit = true) (hb : noLeadingDigit rest = true) :
    spanDigits (ds ++ rest) = (ds, rest) := by
  induction ds with
  | nil => simpa using spanDigits_of_boundary rest hb
  | cons c cs ih =>
    have hc : c.isDigit = true := hd c (by simp)
    have ihcs := ih (fun x hx => hd x (by simp [hx]))
    simp [spanDigits, hc, ihcs]

theorem hex4_combine (n : Nat) (h : n < 65536) :
    n / 4096 % 16 * 4096 + n / 256 % 16 * 256 + n / 16 % 16 * 16 + n % 16 = n := by
  omega

theorem char_valid_range (c : Char) :
    c.toNat < 55296 ∨ (57344 ≤ c.toNat ∧ c.toNat < 1114112) := by
  have h := c.valid
  unfold UInt32.isValidChar Nat.isValidChar at h
  exact h



theorem hexQuad_hexDig (n : Nat) (h : n < 65536) :
    hexQuad (hexDig (n / 4096 % 16)) (hexDig (n / 256 % 16))
      (hexDig (n / 16 % 16)) (hexDig (n % 16)) = some n := by
  unfold hexQuad
  rw [hexVal_hexDig _ (Nat.mod_lt _ (by norm_num)),
    hexVal_hexDig _ (Nat.mod_lt _ (by norm_num)),
    hexVal_hexDig _ (Nat.mod_lt _ (by norm_num)),
    hexVal_hexDig _ (Nat.mod_lt _ (by norm_num))]
  simp [hex4_combine n h]

theorem escChar_length_pos (c : Char) : 1 ≤ (escChar c).length := by
  unfold escChar
  split
  · simp
  split
  · simp
  split
  · simp
  split
  · simp
  split
  · simp
  split
  · simp
  split
  · simp
  split
  · simp
  split
  · simp
  · simp

theorem parseChars_bsU (f : Nat) (k tail : List Char) (ch : Char)
    (hu : parseUBody k = some (ch, tail)) :
    parseChars (f + 1) (cBackslash :: 'u' :: k) =
      (parseChars f tail).map (fun p => (ch :: p.1, p.2)) := by
  simp [parseChars, escResult, hu, (by decide : ¬(cBackslash = cQuote))]

theorem parseUBody_bmp (c : Char) (h9 : c.toNat < 65536) (tail : List Char) :
    parseUBody (toHex4 c.toNat ++ tail) = some (c, tail) := by
  have hrange := char_valid_range c
  have hs1 : ¬(55296 ≤ c.toNat ∧ c.toNat < 56320) := by omega
  have hs2 : ¬(56320 ≤ c.toNat ∧ c.toNat < 57344) := by omega
  simp [toHex4, parseUBody, hexQuad_hexDig c.toNat h9, hs1, hs2,
    Char.ofNat_toNat]

theorem parseLowSur_run (n m : Nat) (hm : m < 65536)
    (hp2 : 56320 ≤ m ∧ m < 57344) (tail : List Char) :
    parseLowSur n (cBackslash :: 'u' :: (toHex4 m ++ tail)) =
      some (combineSur n m, tail) := by
  simp [toHex4, parseLowSur, hexQuad_hexDig _ hm, hp2]

theorem parseUBody_run (n : Nat) (hn : n < 65536) (k1 : List Char) :
    parseUBody (toHex4 n ++ k1) =
      (if 55296 ≤ n ∧ n < 56320 then parseLowSur n k1
       else if 56320 ≤ n ∧ n < 57344 then none
       else some (Char.ofNat n, k1)) := by
  simp only [toHex4, List.cons_append, List.nil_append, parseUBody,
    hexQuad_hexDig _ hn]

theorem parseUBody_pair (c : Char) (h9 : ¬c.toNat < 65536) (tail : List Char) :
    parseUBody (toHex4 (55296 + (c.toNat - 65536) / 1024) ++
      cBackslash :: 'u' :: (toHex4 (56320 + (c.toNat - 65536) % 1024) ++ tail)) =
      some (c, tail) := by
  have hrange := char_valid_range c
  have hhi : 55296 + (c.toNat - 65536) / 1024 < 65536 := by omega
  have hlo : 56320 + (c.toNat - 65536) % 1024 < 65536 := by omega
  have hp1 : 55296 ≤ 55296 + (c.toNat - 65536) / 1024 ∧
      55296 + (c.toNat - 65536) / 1024 < 56320 := by omega
  have hp2 : 56320 ≤ 56320 + (c.toNat - 65536) % 1024 ∧
      56320 + (c.toNat - 65536) % 1024 < 57344 := by omega
  have hcomb : combineSur (55296 + (c.toNat - 65536) / 1024)
      (56320 + (c.toNat - 65536) % 1024) = c := by
    unfold combineSur
    have he : 65536 + (55296 + (c.toNat - 65536) / 1024 - 55296) * 1024 +
        (56320 + (c.toNat - 65536) % 1024 - 56320) = c.toNat := by omega
    rw [he, Char.ofNat_toNat]
  rw [parseUBody_run _ hhi, if_pos hp1,
    parseLowSur_run _ _ hlo hp2, hcomb]

theorem parseChars_escList :
    ∀ (s : List Char) (fuel : Nat) (rest : List Char),
      (escList s).length < fuel →
      parseChars fuel (escList s ++ cQuote :: rest) = some (s, rest) := by
  intro s
  induction s with
  | nil =>
    intro fuel rest hf
    obtain ⟨f, rfl⟩ : ∃ f, fuel = f + 1 := ⟨fuel - 1, by omega⟩
    simp [escList, parseChars]
  | cons c cs ih =>
    intro fuel rest hf
    have hlen : (escList (c :: cs)).length =
        (escChar c).length + (escList cs).length := by
      simp [escList]
    have hcpos := escChar_length_pos c
    obtain ⟨f, rfl⟩ : ∃ f, fuel = f + 1 := ⟨fuel - 1, by omega⟩
    have hf' : (escList cs).length < f := by omega
    have ihf := ih f rest hf'
    show parseChars (f + 1) ((escChar c ++ escList cs) ++ cQuote :: rest) = _
    rw [List.append_assoc]
    by_cases h1 : c = cQuote
    · subst h1
      have hesc : escChar cQuote = [cBackslash, cQuote] := by simp [escChar]
      rw [hesc]
      simp [parseChars, escResult, simpleEsc, ihf, (by decide : ¬(cBackslash = cQuote)), (by decide : ¬(cQuote = 'u'))]
    by_cases h2 : c = cBackslash
    · subst h2
      have hesc : escChar cBackslash = [cBackslash, cBackslash] := by
        simp [escChar, cQuote, cBackslash]
      rw [hesc]
      simp [parseChars, escResult, simpleEsc, ihf, (by decide : ¬(cBackslash = cQuote)), (by decide : ¬(cBackslash = 'u'))]
    by_cases h3 : c.toNat = 8
    · have hesc : escChar c = [cBackslash, 'b'] := by simp [escChar, h1, h2, h3]
      have hc : Char.ofNat 8 = c := by rw [← h3, Char.ofNat_toNat]
      rw [hesc]
      simp [parseChars, escResult, simpleEsc, ihf, hc, (by decide : ¬(cBackslash = cQuote)), (by decide : ¬('b' = 'u')), (by decide : ¬('b' = cQuote)), (by decide : ¬('b' = cBackslash)), (by decide : ¬('b' = '/'))]
      exact hc
    by_cases h4 : c.toNat = 9
    · have hesc : escChar c = [cBackslash, 't'] := by
        simp [escChar, h1, h2, h3, h4]
      have hc : Char.ofNat 9 = c := by rw [← h4, Char.ofNat_toNat]
      rw [hesc]
      simp [parseChars, escResult, simpleEsc, ihf, hc, (by decide : ¬(cBackslash = cQuote)), (by decide : ¬('t' = 'u')), (by decide : ¬('t' = cQuote)), (by decide : ¬('t' = cBackslash)), (by decide : ¬('t' = '/')), (by decide : ¬('t' = 'b'))]
      exact hc
    by_cases h5 : c.toNat = 10
    · have hesc : escChar c = [cBackslash, 'n'] := by
        simp [escChar, h1, h2, h3, h4, h5]
      have hc : Char.ofNat 10 = c := by rw [← h5, Char.ofNat_toNat]
      rw [hesc]
      simp [parseChars, escResult, simpleEsc, ihf, hc, (by decide : ¬(cBackslash = cQuote)), (by decide : ¬('n' = 'u')), (by decide : ¬('n' = cQuote)), (by decide : ¬('n' = cBackslash)), (by decide : ¬('n' = '/')), (by decide : ¬('n' = 'b')), (by decide : ¬('n' = 't'))]
      exact hc
    by_cases h6 : c.toNat = 12
    · have hesc : escChar c = [cBackslash, 'f'] := by
        simp [escChar, h1, h2, h3, h4, h5, h6]
      have hc : Char.ofNat 12 = c := by rw [← h6, Char.ofNat_toNat]
      rw [hesc]
      simp [parseChars, escResult, simpleEsc, ihf, hc, (by decide : ¬(cBackslash = cQuote)), (by decide : ¬('f' = 'u')), (by decide : ¬('f' = cQuote)), (by decide : ¬('f' = cBackslash)), (by decide : ¬('f' = '/')), (by decide : ¬('f' = 'b')), (by decide : ¬('f' = 't')), (by decide : ¬('f' = 'n'))]
      exact hc
    by_cases h7 : c.toNat = 13
    · have hesc : escChar c = [cBackslash, 'r'] := by
        simp [escChar, h1, h2, h3, h4, h5, h6, h7]
      have hc : Char.ofNat 13 = c := by rw [← h7, Char.ofNat_toNat]
      rw [hesc]
      simp [parseChars, escResult, simpleEsc, ihf, hc, (by decide : ¬(cBackslash = cQuote)), (by decide : ¬('r' = 'u')), (by decide : ¬('r' = cQuote)), (by decide : ¬('r' = cBackslash)), (by decide : ¬('r' = '/')), (by decide : ¬('r' = 'b')), (by decide : ¬('r' = 't')), (by decide : ¬('r' = 'n')), (by decide : ¬('r' = 'f'))]
      exact hc
    by_cases h8 : 32 ≤ c.toNat ∧ c.toNat ≤ 126
    · have hesc : escChar c = [c] := by
        simp [escChar, h1, h2, h3, h4, h5, h6, h7, h8]
      rw [hesc]
      simp only [List.cons_append, List.nil_append, parseChars]
      rw [if_neg h1, if_neg h2]
      simp [ihf]
    by_cases h9 : c.toNat < 65536
    · have hesc : escChar c = cBackslash :: 'u' :: toHex4 c.toNat := by
        simp [escChar, h1, h2, h3, h4, h5, h6, h7, h8, h9]
      rw [hesc]
      rw [List.cons_append, List.cons_append]
      rw [parseChars_bsU f _ _ _ (parseUBody_bmp c h9 (escList cs ++ cQuote :: rest))]
      simp [ihf]
    · have hesc : escChar c =
          cBackslash :: 'u' :: toHex4 (55296 + (c.toNat - 65536) / 1024) ++
          cBackslash :: 'u' :: toHex4 (56320 + (c.toNat - 65536) % 1024) := by
        simp [escChar, h1, h2, h3, h4, h5, h6, h7, h8, h9]
      rw [hesc]
      rw [List.append_assoc, List.cons_append, List.cons_append,
        List.cons_append, List.cons_append]
      rw [parseChars_bsU f _ _ _
        (parseUBody_pair c h9 (escList cs ++ cQuote :: rest))]
      simp [ihf]

theorem natToCharsAux_range : ∀ fuel n, n ≤ fuel →
    ∀ c ∈ natToCharsAux fuel n, 48 ≤ c.toNat ∧ c.toNat ≤ 57 := by
  intro fuel
  induction fuel with
  | zero =>
    intro n hn c hc
    have h0 : n = 0 := by omega
    subst h0
    simp [natToCharsAux] at hc
    subst hc
    decide
  | succ fuel ih =>
    intro n hn c hc
    by_cases h10 : n < 10
    · simp [natToCharsAux, if_pos h10] at hc
      subst hc
      have := (digitChar_facts n h10).2
      omega
    · simp only [natToCharsAux, if_neg h10, List.mem_append,
        List.mem_singleton] at hc
      rcases hc with hc | hc
      · exact ih (n / 10) (by omega) c hc
      · subst hc
        have := (digitChar_facts (n % 10) (by omega)).2
        omega

theorem digit_ne_keys (c : Char) (h : c.isDigit = true) :
    ¬c = 'n' ∧ ¬c = 't' ∧ ¬c = 'f' ∧ ¬c = cQuote ∧ ¬c = '[' ∧
    ¬c = cLBrace ∧ ¬c = '-' := by
  refine ⟨?_, ?_, ?_, ?_, ?_, ?_, ?_⟩ <;> (rintro rfl; exact absurd h (by decide))

theorem parseValue_num (f : Nat) (k : Int) (rest : List Char)
    (hb : noLeadingDigit rest = true) :
    parseValue (f + 1) (intToChars k ++ rest) = some (.num k, rest) := by
  have hspan : spanDigits (natToChars k.natAbs ++ rest) =
      (natToChars k.natAbs, rest) :=
    spanDigits_append _ rest (natToChars_digits _) hb
  by_cases hk : k < 0
  · rw [intToChars, if_pos hk]
    obtain ⟨d, ds, hnat⟩ := List.exists_cons_of_ne_nil (natToChars_ne_nil k.natAbs)
    have hval : -((digitsVal (d :: ds) : Nat) : Int) = k := by
      rw [← hnat, digitsVal_natToChars]
      omega
    rw [hnat, List.cons_append] at hspan
    simp [parseValue, hnat, hspan, hval,
      (by decide : ¬('-' = 'n')), (by decide : ¬('-' = 't')),
      (by decide : ¬('-' = 'f')), (by decide : ¬('-' = cQuote)),
      (by decide : ¬('-' = '[')), (by decide : ¬('-' = cLBrace))]
  · have hnatabs : k.natAbs = k.toNat := by omega
    rw [intToChars, if_neg hk, ← hnatabs]
    obtain ⟨d, ds, hnat⟩ := List.exists_cons_of_ne_nil (natToChars_ne_nil k.natAbs)
    have hd_digit : d.isDigit = true := by
      have := natToChars_digits k.natAbs
      rw [hnat] at this
      exact this d (by simp)
    obtain ⟨n1, n2, n3, n4, n5, n6, n7⟩ := digit_ne_keys d hd_digit
    have hval : ((digitsVal (d :: ds) : Nat) : Int) = k := by
      rw [← hnat, digitsVal_natToChars]
      omega
    rw [hnat] at hspan ⊢
    simp only [List.cons_append, parseValue]
    rw [if_neg n1, if_neg n2, if_neg n3, if_neg n4, if_neg n5, if_neg n6,
      if_neg n7, if_pos hd_digit]
    rw [show d :: (ds ++ rest) = (d :: ds) ++ rest from rfl, hspan]
    simp [hval]

theorem noLeadingDigit_cons (c : Char) (l : List Char)
    (h : c.isDigit = false) : noLeadingDigit (c :: l) = true := by
  simp [noLeadingDigit, h]

theorem natToChars_range (n : Nat) :
    ∀ c ∈ natToChars n, 48 ≤ c.toNat ∧ c.toNat ≤ 57 :=
  natToCharsAux_range n n le_rfl

theorem dumpsV_cons (v : Json) : ∃ c t, dumpsV v = c :: t ∧ ¬c = ']' := by
  cases v with
  | null => exact ⟨'n', _, rfl, by decide⟩
  | bool b =>
    cases b
    · exact ⟨'f', _, rfl, by decide⟩
    · exact ⟨'t', _, rfl, by decide⟩
  | num n =>
    by_cases hk : n < 0
    · refine ⟨'-', natToChars n.natAbs, ?_, by decide⟩
      simp [dumpsV, intToChars, hk]
    · obtain ⟨d, ds, hnat⟩ :=
        List.exists_cons_of_ne_nil (natToChars_ne_nil n.toNat)
      refine ⟨d, ds, ?_, ?_⟩
      · simp [dumpsV, intToChars, hk, hnat]
      · have hr := natToChars_range n.toNat d (by rw [hnat]; simp)
        intro heq
        subst heq
        revert hr
        decide
  | str s => exact ⟨cQuote, _, rfl, by decide⟩
  | arr xs => exact ⟨'[', _, rfl, by decide⟩
  | obj kvs => exact ⟨cLBrace, _, rfl, by decide⟩

theorem dumpsV_len_pos (v : Json) : 1 ≤ (dumpsV v).length := by
  obtain ⟨c, t, h, _⟩ := dumpsV_cons v
  simp [h]

theorem dumpsItems_cons_head (x : Json) (tl : List Json) (k : List Char) :
    ∃ c t, dumpsItems (x :: tl) ++ k = c :: t ∧ ¬c = ']' := by
  obtain ⟨c, t, hx, hc⟩ := dumpsV_cons x
  cases tl with
  | nil => exact ⟨c, t ++ k, by simp [dumpsItems, hx], hc⟩
  | cons y tl' =>
    exact ⟨c, (t ++ ',' :: dumpsItems (y :: tl')) ++ k,
      by simp [dumpsItems, hx], hc⟩

theorem dumpsItems_len_pos (x : Json) (tl : List Json) :
    1 ≤ (dumpsItems (x :: tl)).length := by
  obtain ⟨c, t, h, _⟩ := dumpsItems_cons_head x tl []
  rw [List.append_nil] at h
  simp [h]

theorem dumpsMembers_cons_head (k : List Char) (v : Json)
    (tl : List (List Char × Json)) (x : List Char) :
    ∃ t, dumpsMembers ((k, v) :: tl) ++ x = cQuote :: t := by
  cases tl with
  | nil =>
    refine ⟨escList k ++ cQuote :: ':' :: (dumpsV v ++ x), ?_⟩
    simp [dumpsMembers]
  | cons kv tl' =>
    refine ⟨escList k ++ cQuote :: ':' ::
      (dumpsV v ++ ',' :: (dumpsMembers (kv :: tl') ++ x)), ?_⟩
    simp [dumpsMembers]

theorem parseItems_sound :
    ∀ (xs : List Json), (∀ x ∈ xs, ParsesBack x) → xs ≠ [] →
      ∀ (f : Nat) (rest : List Char),
        (dumpsItems xs).length + 1 ≤ f →
        parseItems f (dumpsItems xs ++ ']' :: rest) = some (xs, rest) := by
  intro xs
  induction xs with
  | nil => intro _ hne; exact absurd rfl hne
  | cons x tl ih =>
    intro hpb _ f rest hf
    have hx := hpb x (by simp)
    have hlx := dumpsV_len_pos x
    cases tl with
    | nil =>
      simp only [dumpsItems] at hf ⊢
      obtain ⟨f', rfl⟩ : ∃ f', f = f' + 1 := ⟨f - 1, by omega⟩
      simp only [parseItems]
      rw [hx f' (']' :: rest) (by omega)
        (noLeadingDigit_cons _ _ (by decide))]
      simp
    | cons y tl' =>
      have hly := dumpsItems_len_pos y tl'
      have hlen : (dumpsItems (x :: y :: tl')).length =
          (dumpsV x).length + 1 + (dumpsItems (y :: tl')).length := by
        simp [dumpsItems]
        omega
      obtain ⟨f', rfl⟩ : ∃ f', f = f' + 1 := ⟨f - 1, by omega⟩
      have hf2 : (dumpsV x).length + 1 + (dumpsItems (y :: tl')).length + 1 ≤
          f' + 1 := by
        rw [← hlen]
        exact hf
      have hih := ih (fun z hz => hpb z (by simp [hz])) (by simp) f' rest
        (by omega)
      simp only [dumpsItems] at hf2 ⊢
      rw [List.append_assoc, List.cons_append]
      simp only [parseItems]
      rw [hx f' (',' :: (dumpsItems (y :: tl') ++ ']' :: rest))
        (by simp [dumpsItems] at hf2; omega)
        (noLeadingDigit_cons _ _ (by decide))]
      simp [hih]

theorem parseMembers_sound :
    ∀ (kvs : List (List Char × Json)), (∀ kv ∈ kvs, ParsesBack kv.2) →
      kvs ≠ [] →
      ∀ (f : Nat) (rest : List Char),
        (dumpsMembers kvs).length + 1 ≤ f →
        parseMembers f (dumpsMembers kvs ++ cRBrace :: rest) =
          some (kvs, rest) := by
  intro kvs
  induction kvs with
  | nil => intro _ hne; exact absurd rfl hne
  | cons kv tl ih =>
    obtain ⟨k, v⟩ := kv
    intro hpb _ f rest hf
    have hv : ParsesBack v := hpb (k, v) (by simp)
    have hlv := dumpsV_len_pos v
    cases tl with
    | nil =>
      have hlen : (dumpsMembers [(k, v)]).length =
          (escList k).length + 3 + (dumpsV v).length := by
        simp [dumpsMembers]
        omega
      obtain ⟨f', rfl⟩ : ∃ f', f = f' + 1 := ⟨f - 1, by omega⟩
      have hf2 : (escList k).length + 3 + (dumpsV v).length + 1 ≤ f' + 1 := by
        rw [← hlen]
        exact hf
      simp only [dumpsMembers] at hf ⊢
      simp only [List.cons_append, List.append_assoc]
      simp only [parseMembers, if_pos rfl]
      rw [parseChars_escList k _ (':' :: (dumpsV v ++ cRBrace :: rest))
        (by simp [List.length_append]; omega)]
      have hvr := hv f' (cRBrace :: rest) (by omega)
        (noLeadingDigit_cons _ _ (by decide))
      simp [hvr, (by decide : ¬(cRBrace = ','))]
    | cons kv2 tl' =>
      have hlen : (dumpsMembers ((k, v) :: kv2 :: tl')).length =
          (escList k).length + 4 + (dumpsV v).length +
            (dumpsMembers (kv2 :: tl')).length := by
        simp [dumpsMembers]
        omega
      obtain ⟨f', rfl⟩ : ∃ f', f = f' + 1 := ⟨f - 1, by omega⟩
      have hf2 : (escList k).length + 4 + (dumpsV v).length +
          (dumpsMembers (kv2 :: tl')).length + 1 ≤ f' + 1 := by
        rw [← hlen]
        exact hf
      have hih := ih (fun z hz => hpb z (by simp [hz])) (by simp) f' rest
        (by omega)
      simp only [dumpsMembers] at hf ⊢
      simp only [List.cons_append, List.append_assoc]
      simp only [parseMembers, if_pos rfl]
      rw [parseChars_escList k _
        (':' :: (dumpsV v ++ ',' :: (dumpsMembers (kv2 :: tl') ++
          cRBrace :: rest)))
        (by simp [List.length_append]; omega)]
      have hvr := hv f' (',' :: (dumpsMembers (kv2 :: tl') ++ cRBrace :: rest))
        (by omega)
        (noLeadingDigit_cons _ _ (by decide))
      simp [hvr, hih]

theorem parsesBack : ∀ v : Json, ParsesBack v := by
  suffices H : ∀ (N : Nat) (v : Json), sizeOf v ≤ N → ParsesBack v by
    intro v
    exact H (sizeOf v) v le_rfl
  intro N
  induction N with
  | zero =>
    intro v hv
    cases v <;> simp at hv
  | succ N ih =>
    intro v hv
    cases v with
    | null =>
      intro fuel rest hfu hb
      have h4 : (dumpsV Json.null).length = 4 := by simp [dumpsV]
      obtain ⟨f, rfl⟩ : ∃ f, fuel = f + 1 := ⟨fuel - 1, by omega⟩
      simp [dumpsV, parseValue]
    | bool b =>
      cases b with
      | false =>
        intro fuel rest hfu hb
        have h5 : (dumpsV (Json.bool false)).length = 5 := by simp [dumpsV]
        obtain ⟨f, rfl⟩ : ∃ f, fuel = f + 1 := ⟨fuel - 1, by omega⟩
        simp [dumpsV, parseValue, (by decide : ¬('f' = 'n')),
          (by decide : ¬('f' = 't'))]
      | true =>
        intro fuel rest hfu hb
        have h4 : (dumpsV (Json.bool true)).length = 4 := by simp [dumpsV]
        obtain ⟨f, rfl⟩ : ∃ f, fuel = f + 1 := ⟨fuel - 1, by omega⟩
        simp [dumpsV, parseValue, (by decide : ¬('t' = 'n'))]
    | num k =>
      intro fuel rest hfu hb
      have h1 := dumpsV_len_pos (Json.num k)
      obtain ⟨f, rfl⟩ : ∃ f, fuel = f + 1 := ⟨fuel - 1, by omega⟩
      have hpn := parseValue_num f k rest hb
      simpa [dumpsV] using hpn
    | str s =>
      intro fuel rest hfu hb
      have h1 := dumpsV_len_pos (Json.str s)
      obtain ⟨f, rfl⟩ : ∃ f, fuel = f + 1 := ⟨fuel - 1, by omega⟩
      have hpc := parseChars_escList s
        ((escList s ++ cQuote :: rest).length + 1) rest
        (by simp [List.length_append]; omega)
      show parseValue (f + 1) (dumpsV (.str s) ++ rest) = _
      simp only [dumpsV, List.cons_append, List.append_assoc,
        List.singleton_append]
      simp only [parseValue]
      simp only [List.nil_append, if_true]
      rw [if_neg (by decide : ¬(cQuote = 'n')),
        if_neg (by decide : ¬(cQuote = 't')),
        if_neg (by decide : ¬(cQuote = 'f')), hpc]
    | arr xs =>
      cases xs with
      | nil =>
        intro fuel rest hfu hb
        have h2 : (dumpsV (Json.arr [])).length = 2 := by
          simp [dumpsV, dumpsItems]
        obtain ⟨f, rfl⟩ : ∃ f, fuel = f + 1 := ⟨fuel - 1, by omega⟩
        simp [dumpsV, dumpsItems, parseValue,
          (by decide : ¬('[' = 'n')), (by decide : ¬('[' = 't')),
          (by decide : ¬('[' = 'f')), (by decide : ¬('[' = cQuote))]
      | cons x tl =>
        intro fuel rest hfu hb
        have hmem : ∀ z ∈ x :: tl, ParsesBack z := by
          intro z hz
          apply ih
          have h1 := List.sizeOf_lt_of_mem hz
          have h2 : sizeOf (Json.arr (x :: tl)) = 1 + sizeOf (x :: tl) := by
            simp
          omega
        have hlen2 : (dumpsV (Json.arr (x :: tl))).length =
            (dumpsItems (x :: tl)).length + 2 := by
          simp [dumpsV, List.length_append]
        obtain ⟨f, rfl⟩ : ∃ f, fuel = f + 1 := ⟨fuel - 1, by omega⟩
        have hitems := parseItems_sound (x :: tl) hmem (by simp) f rest
          (by omega)
        show parseValue (f + 1) (dumpsV (.arr (x :: tl)) ++ rest) = _
        simp only [dumpsV, List.cons_append, List.append_assoc,
          List.singleton_append]
        simp only [parseValue]
        simp only [List.nil_append, if_true]
        rw [if_neg (by decide : ¬('[' = 'n')),
          if_neg (by decide : ¬('[' = 't')),
          if_neg (by decide : ¬('[' = 'f')),
          if_neg (by decide : ¬('[' = cQuote))]
        obtain ⟨c0, t0, hshape, hc0⟩ := dumpsItems_cons_head x tl (']' :: rest)
        rw [hshape]
        split
        · rename_i heq
          exact absurd (List.head_eq_of_cons_eq heq) hc0
        · rw [← hshape, hitems]
    | obj kvs =>
      cases kvs with
      | nil =>
        intro fuel rest hfu hb
        have h2 : (dumpsV (Json.obj [])).length = 2 := by
          simp [dumpsV, dumpsMembers]
        obtain ⟨f, rfl⟩ : ∃ f, fuel = f + 1 := ⟨fuel - 1, by omega⟩
        simp [dumpsV, dumpsMembers, parseValue,
          (by decide : ¬(cLBrace = 'n')), (by decide : ¬(cLBrace = 't')),
          (by decide : ¬(cLBrace = 'f')), (by decide : ¬(cLBrace = cQuote)),
          (by decide : ¬(cLBrace = '['))]
      | cons kv tl =>
        obtain ⟨k, v⟩ := kv
        intro fuel rest hfu hb
        have hmem : ∀ z ∈ (k, v) :: tl, ParsesBack z.2 := by
          intro z hz
          apply ih
          have h1 := List.sizeOf_lt_of_mem hz
          have h2 : sizeOf (Json.obj ((k, v) :: tl)) =
              1 + sizeOf ((k, v) :: tl) := by simp
          obtain ⟨zk, zv⟩ := z
          have h3 : sizeOf (zk, zv) = 1 + sizeOf zk + sizeOf zv := by simp
          simp only at h1 h2 ⊢
          omega
        have hlen2 : (dumpsV (Json.obj ((k, v) :: tl))).length =
            (dumpsMembers ((k, v) :: tl)).length + 2 := by
          simp [dumpsV, List.length_append]
        obtain ⟨f, rfl⟩ : ∃ f, fuel = f + 1 := ⟨fuel - 1, by omega⟩
        have hmembers := parseMembers_sound ((k, v) :: tl) hmem (by simp)
          f rest (by omega)
        show parseValue (f + 1) (dumpsV (.obj ((k, v) :: tl)) ++ rest) = _
        simp only [dumpsV, List.cons_append, List.append_assoc,
          List.singleton_append]
        simp only [parseValue]
        simp only [List.nil_append, if_true]
        rw [if_neg (by decide : ¬(cLBrace = 'n')),
          if_neg (by decide : ¬(cLBrace = 't')),
          if_neg (by decide : ¬(cLBrace = 'f')),
          if_neg (by decide : ¬(cLBrace = cQuote)),
          if_neg (by decide : ¬(cLBrace = '['))]
        obtain ⟨t0, hshape⟩ := dumpsMembers_cons_head k v tl (cRBrace :: rest)
        rw [hshape]
        split
        · rename_i heq
          exact absurd heq (List.cons_ne_nil _ _)
        · rename_i d tail heq
          have hd : d = cQuote := List.head_eq_of_cons_eq heq.symm
          subst hd
          rw [if_neg (by decide : ¬(cQuote = cRBrace))]
          rw [← hshape, hmembers]

theorem loads_dumpsV (v : Json) : loads (dumpsV v) = some v := by
  have h := parsesBack v ((dumpsV v).length + 1) [] (by omega) rfl
  rw [List.append_nil] at h
  simp [loads, h]

theorem hexDig_lt_128 : ∀ n < 16, (hexDig n).toNat < 128 := by decide

theorem toHex4_ascii (n : Nat) : ∀ c ∈ toHex4 n, c.toNat < 128 := by
  intro c hc
  simp only [toHex4, List.mem_cons, List.not_mem_nil, or_false] at hc
  rcases hc with rfl | rfl | rfl | rfl
  all_goals exact hexDig_lt_128 _ (Nat.mod_lt _ (by omega))

theorem escChar_ascii (c : Char) : ∀ x ∈ escChar c, x.toNat < 128 := by
  intro x hx
  unfold escChar at hx
  split_ifs at hx with h1 h2 h3 h4 h5 h6 h7 h8 h9
  · simp at hx; rcases hx with rfl | rfl <;> decide
  · simp at hx; rcases hx with rfl | rfl <;> decide
  · simp at hx; rcases hx with rfl | rfl <;> decide
  · simp at hx; rcases hx with rfl | rfl <;> decide
  · simp at hx; rcases hx with rfl | rfl <;> decide
  · simp at hx; rcases hx with rfl | rfl <;> decide
  · simp at hx; rcases hx with rfl | rfl <;> decide
  · simp at hx; subst hx; omega
  · simp only [List.mem_cons] at hx
    rcases hx with rfl | rfl | hm
    · decide
    · decide
    · exact toHex4_ascii _ x hm
  · simp only [List.mem_cons, List.mem_append] at hx
    rcases hx with (rfl | rfl | hm) | (rfl | rfl | hm)
    · decide
    · decide
    · exact toHex4_ascii _ x hm
    · decide
    · decide
    · exact toHex4_ascii _ x hm

theorem escList_ascii : ∀ s : List Char, ∀ x ∈ escList s, x.toNat < 128 := by
  intro s
  induction s with
  | nil => intro x hx; simp [escList] at hx
  | cons c cs ih =>
    intro x hx
    simp only [escList, List.mem_append] at hx
    rcases hx with hx | hx
    · exact escChar_ascii c x hx
    · exact ih x hx

theorem charOfNat_digit_lt : ∀ m < 10, (Char.ofNat (48 + m)).toNat < 128 := by
  decide

theorem natToCharsAux_ascii :
    ∀ fuel n : Nat, ∀ c ∈ natToCharsAux fuel n, c.toNat < 128 := by
  intro fuel
  induction fuel with
  | zero =>
    intro n c hc
    simp only [natToCharsAux, List.mem_singleton] at hc
    subst hc
    exact charOfNat_digit_lt _ (Nat.mod_lt _ (by omega))
  | succ f ih =>
    intro n c hc
    simp only [natToCharsAux] at hc
    by_cases hn : n < 10
    · rw [if_pos hn] at hc
      simp only [List.mem_singleton] at hc
      subst hc
      exact charOfNat_digit_lt n hn
    · rw [if_neg hn] at hc
      simp only [List.mem_append, List.mem_singleton] at hc
      rcases hc with hc | rfl
      · exact ih _ _ hc
      · exact charOfNat_digit_lt _ (Nat.mod_lt _ (by omega))

theorem intToChars_ascii (n : Int) : ∀ c ∈ intToChars n, c.toNat < 128 := by
  intro c hc
  unfold intToChars natToChars at hc
  by_cases hn : n < 0
  · rw [if_pos hn] at hc
    rcases List.mem_cons.mp hc with rfl | hm
    · decide
    · exact natToCharsAux_ascii _ _ _ hm
  · rw [if_neg hn] at hc
    exact natToCharsAux_ascii _ _ _ hc

theorem dumpsItems_ascii_of :
    ∀ xs : List Json, (∀ x ∈ xs, ∀ c ∈ dumpsV x, c.toNat < 128) →
      ∀ c ∈ dumpsItems xs, c.toNat < 128 := by
  intro xs
  induction xs with
  | nil => intro _ c hc; simp [dumpsItems] at hc
  | cons x tl ih =>
    intro h c hc
    cases tl with
    | nil =>
      simp only [dumpsItems] at hc
      exact h x (by simp) c hc
    | cons y tl' =>
      simp only [dumpsItems, List.mem_append, List.mem_cons] at hc
      rcases hc with hc | rfl | hc
      · exact h x (by simp) c hc
      · decide
      · exact ih (fun z hz d hd => h z (List.mem_cons_of_mem _ hz) d hd) c hc

theorem dumpsMembers_ascii_of :
    ∀ kvs : List (List Char × Json),
      (∀ kv ∈ kvs, ∀ c ∈ dumpsV kv.2, c.toNat < 128) →
      ∀ c ∈ dumpsMembers kvs, c.toNat < 128 := by
  intro kvs
  induction kvs with
  | nil => intro _ c hc; simp [dumpsMembers] at hc
  | cons kv tl ih =>
    obtain ⟨k, v⟩ := kv
    intro h c hc
    cases tl with
    | nil =>
      simp only [dumpsMembers, List.mem_cons, List.mem_append] at hc
      rcases hc with (rfl | hc) | rfl | rfl | hc
      · decide
      · exact escList_ascii k c hc
      · decide
      · decide
      · exact h (k, v) (by simp) c hc
    | cons kv' tl' =>
      simp only [dumpsMembers, List.mem_cons, List.mem_append] at hc
      rcases hc with ((rfl | hc) | rfl | rfl | hc) | rfl | hc
      · decide
      · exact escList_ascii k c hc
      · decide
      · decide
      · exact h (k, v) (by simp) c hc
      · decide
      · exact ih (fun z hz d hd => h z (List.mem_cons_of_mem _ hz) d hd) c hc

theorem dumpsV_ascii : ∀ v : Json, ∀ c ∈ dumpsV v, c.toNat < 128 := by
  suffices H : ∀ (N : Nat) (v : Json), sizeOf v ≤ N →
      ∀ c ∈ dumpsV v, c.toNat < 128 by
    intro v
    exact H (sizeOf v) v le_rfl
  intro N
  induction N with
  | zero =>
    intro v hv
    cases v <;> simp at hv
  | succ N ih =>
    intro v hv c hc
    cases v with
    | null =>
      simp only [dumpsV, List.mem_cons, List.not_mem_nil, or_false] at hc
      rcases hc with rfl | rfl | rfl | rfl <;> decide
    | bool b =>
      cases b with
      | true =>
        simp only [dumpsV, List.mem_cons, List.not_mem_nil, or_false] at hc
        rcases hc with rfl | rfl | rfl | rfl <;> decide
      | false =>
        simp only [dumpsV, List.mem_cons, List.not_mem_nil, or_false] at hc
        rcases hc with rfl | rfl | rfl | rfl | rfl <;> decide
    | num k =>
      simp only [dumpsV] at hc
      exact intToChars_ascii k c hc
    | str s =>
      simp only [dumpsV, List.mem_cons, List.mem_append,
        List.mem_singleton, List.not_mem_nil, or_false] at hc
      rcases hc with (rfl | hc) | rfl
      · decide
      · exact escList_ascii s c hc
      · decide
    | arr xs =>
      simp only [dumpsV, List.mem_cons, List.mem_append,
        List.mem_singleton, List.not_mem_nil, or_false] at hc
      rcases hc with (rfl | hc) | rfl
      · decide
      · refine dumpsItems_ascii_of xs ?_ c hc
        intro x hx d hd
        refine ih x ?_ d hd
        have h1 := List.sizeOf_lt_of_mem hx
        have h2 : sizeOf (Json.arr xs) = 1 + sizeOf xs := by simp
        omega
      · decide
    | obj kvs =>
      simp only [dumpsV, List.mem_cons, List.mem_append,
        List.mem_singleton, List.not_mem_nil, or_false] at hc
      rcases hc with (rfl | hc) | rfl
      · decide
      · refine dumpsMembers_ascii_of kvs ?_ c hc
        intro kv hkv d hd
        refine ih kv.2 ?_ d hd
        have h1 := List.sizeOf_lt_of_mem hkv
        have h2 : sizeOf (Json.obj kvs) = 1 + sizeOf kvs := by simp
        obtain ⟨zk, zv⟩ := kv
        have h3 : sizeOf (zk, zv) = 1 + sizeOf zk + sizeOf zv := by simp
        simp only at h1 h2 hd ⊢
        omega
      · decide

theorem map_ofNat_toNat : ∀ l : List Char,
    (l.map Char.toNat).map Char.ofNat = l := by
  intro l
  induction l with
  | nil => rfl
  | cons c cs ih => simp [Char.ofNat_toNat, ih]

/-- C3: Credential codec round-trip.  For every well-formed credential
document `d` (a JSON document whose objects have duplicate-free keys, as a
Python `dict` guarantees), base64-decoding the encoder's token, decoding
the bytes as ASCII and parsing the minified JSON text recovers exactly the
original document: `google_creditial_decoder (google_creditial_encoder d)
= some d`. -/
theorem claim_C3 (d : Json) (hwf : wfJson d = true) :
    google_creditial_decoder (google_creditial_encoder d) = some d := by
  have hascii : ∀ b ∈ (dumpsV d).map Char.toNat, b < 128 := by
    intro b hb
    obtain ⟨c, hc, rfl⟩ := List.mem_map.mp hb
    exact dumpsV_ascii d c hc
  have h256 : ∀ b ∈ (dumpsV d).map Char.toNat, b < 256 := by
    intro b hb
    have := hascii b hb
    omega
  have hrt := b64_roundtrip _ h256
  have hall : ((dumpsV d).map Char.toNat).all (fun b => decide (b < 128)) =
      true := by
    rw [List.all_eq_true]
    intro b hb
    simpa using hascii b hb
  simp only [google_creditial_encoder, google_creditial_decoder, hrt, hall,
    if_true]
  rw [List.map_map, ← List.map_map, map_ofNat_toNat, loads_dumpsV]

theorem claim_C3_witness :
    wfJson docExample = true ∧
      google_creditial_decoder (google_creditial_encoder docExample) =
        some docExample :=
  ⟨by decide, claim_C3 docExample (by decide)⟩
